import Mathlib

/-!
# Verification of `notethisurl.py`

A shallow embedding of the bookmarking tool `notethisurl.py` (config
management, JSON persistence of bookmark records, tag counting, table
rendering with timezone conversion, and GitHub remote sync), together with
theorems settling the specification's claims about it.

Library calls made by the Python code (`json.dump` / `json.load` with
`indent=4` and `ensure_ascii`, `datetime` ISO-8601 formatting and parsing,
`collections.Counter.most_common`, `pytz` timezone lookup, and the PyGithub
remote-file API) are modelled faithfully to their documented behaviour:
the JSON layer is a concrete serializer and parser over character lists,
timezones are modelled as fixed UTC offsets resolved from an abstract
database, and the GitHub API is an abstract record of call outcomes.
-/

namespace NoteThisUrl

/-! ## Character-level utilities -/

/-- The whitespace characters skipped by Python's JSON decoder
(`json.decoder.WHITESPACE` is the set space, tab, newline, carriage return). -/
def isWsChar (c : Char) : Bool :=
  c = ' ' || c = '\t' || c = '\n' || c = '\r'

/-- Drop leading JSON whitespace. -/
def skipWs (l : List Char) : List Char := l.dropWhile isWsChar

/-- Decimal digit test. -/
def isDigitChar (c : Char) : Bool := '0' ≤ c && c ≤ '9'

/-- The decimal digit character for `d < 10`. -/
def digitChar (d : Nat) : Char := Char.ofNat (48 + d)

/-- Numeric value of a decimal digit character. -/
def digitVal (c : Char) : Nat := c.toNat - 48

/-- Lowercase hexadecimal digit character for `d < 16` (Python's
`ensure_ascii` escapes use lowercase hex). -/
def hexDigitChar (d : Nat) : Char :=
  if d < 10 then Char.ofNat (48 + d) else Char.ofNat (87 + d)

/-- Value of a hexadecimal digit character, accepting both cases as
Python's JSON string unescaping does. -/
def hexVal (c : Char) : Option Nat :=
  if '0' ≤ c && c ≤ '9' then some (c.toNat - 48)
  else if 'a' ≤ c && c ≤ 'f' then some (c.toNat - 87)
  else if 'A' ≤ c && c ≤ 'F' then some (c.toNat - 55)
  else none

/-- Four lowercase hex digits of `n % 0x10000`, as in Python's `\uXXXX`
escapes. -/
def hex4 (n : Nat) : List Char :=
  [hexDigitChar (n / 4096 % 16), hexDigitChar (n / 256 % 16),
   hexDigitChar (n / 16 % 16), hexDigitChar (n % 16)]

/-- Substring test on character lists, mirroring Python's `"404" in str(e)`. -/
def containsSub (needle : List Char) (hay : List Char) : Bool :=
  match hay with
  | [] => needle.isEmpty
  | _ :: t => if needle.isPrefixOf hay then true else containsSub needle t

/-! ## The JSON data model

`json.load` returns Python values built from `None`, booleans, numbers,
strings, lists and dicts; `json.dump` writes them back.  Numbers are
modelled as integers (the bookmark data contains only strings; floats,
`NaN` and `Infinity` are outside the model).  Objects are association
lists in insertion order, matching dict iteration order.  Arrays and
objects are their own inductives (mutual with `Json`) so that every
function on them is plain structural recursion. -/

mutual

inductive Json where
  | null : Json
  | bool (b : Bool) : Json
  | num (n : Int) : Json
  | str (s : String) : Json
  | arr (elems : JsonArr) : Json
  | obj (members : JsonObj) : Json
  deriving Repr, DecidableEq

inductive JsonArr where
  | nil : JsonArr
  | cons (hd : Json) (tl : JsonArr) : JsonArr
  deriving Repr, DecidableEq

inductive JsonObj where
  | nil : JsonObj
  | cons (key : String) (val : Json) (tl : JsonObj) : JsonObj
  deriving Repr, DecidableEq

end

/-- Convert a model JSON array to a Lean list of values. -/
def JsonArr.toList : JsonArr → List Json
  | .nil => []
  | .cons x xs => x :: xs.toList

/-- Build a model JSON array from a Lean list of values. -/
def JsonArr.ofList : List Json → JsonArr
  | [] => .nil
  | x :: xs => .cons x (JsonArr.ofList xs)

/-- Convert a model JSON object to a Lean association list. -/
def JsonObj.toList : JsonObj → List (String × Json)
  | .nil => []
  | .cons k v kvs => (k, v) :: kvs.toList

/-- Build a model JSON object from a Lean association list. -/
def JsonObj.ofList : List (String × Json) → JsonObj
  | [] => .nil
  | (k, v) :: kvs => .cons k v (JsonObj.ofList kvs)

/-- The keys of a JSON object, in insertion order. -/
def JsonObj.keys : JsonObj → List String
  | .nil => []
  | .cons k _ kvs => k :: kvs.keys

/-- Membership test for a key, mirroring Python's `key in config` on a dict. -/
def JsonObj.hasKey (kvs : JsonObj) (k : String) : Bool :=
  match kvs with
  | .nil => false
  | .cons k' _ tl => if k' = k then true else tl.hasKey k

/-- First value stored under a key, mirroring dict lookup (keys produced by
our parser and writer are used like dict keys; for duplicate-free objects
this is exactly dict access). -/
def JsonObj.find (kvs : JsonObj) (k : String) : Option Json :=
  match kvs with
  | .nil => none
  | .cons k' v tl => if k' = k then some v else tl.find k

/-! ## Rendering: the model of `json.dump(x, file, indent=4)`

Python with `indent=4` uses item separator `",\n" + indent` and key
separator `": "`; empty containers render as `[]` / `{}`.  `ensure_ascii`
(the default) escapes `"`, `\`, control characters and all non-ASCII
characters, using `\uXXXX` with surrogate pairs above `U+FFFF`. -/

/-- Python `json.encoder.py_encode_basestring_ascii` on one character. -/
def escapeChar (c : Char) : List Char :=
  if c = '"' then ['\\', '"']
  else if c = '\\' then ['\\', '\\']
  else if c = Char.ofNat 8 then ['\\', 'b']
  else if c = Char.ofNat 12 then ['\\', 'f']
  else if c = '\n' then ['\\', 'n']
  else if c = '\r' then ['\\', 'r']
  else if c = '\t' then ['\\', 't']
  else if 0x20 ≤ c.toNat && c.toNat ≤ 0x7e then [c]
  else if c.toNat < 0x10000 then '\\' :: 'u' :: hex4 c.toNat
  else
    ('\\' :: 'u' :: hex4 (0xd800 + (c.toNat - 0x10000) / 1024)) ++
    ('\\' :: 'u' :: hex4 (0xdc00 + (c.toNat - 0x10000) % 1024))

/-- Escape every character of a string body. -/
def escapeList (cs : List Char) : List Char :=
  match cs with
  | [] => []
  | c :: t => escapeChar c ++ escapeList t

/-- A JSON string literal: quotes around the escaped body. -/
def renderString (s : String) : List Char :=
  '"' :: escapeList s.data ++ ['"']

/-- Decimal digits of `n`, most significant first, via explicit fuel
(`fuel > n` suffices since the argument is divided by 10 each step). -/
def natRenderAux : Nat → Nat → List Char
  | 0, _ => []
  | fuel + 1, n =>
    if n < 10 then [digitChar n]
    else natRenderAux fuel (n / 10) ++ [digitChar (n % 10)]

/-- Decimal rendering of a natural number. -/
def natRender (n : Nat) : List Char := natRenderAux (n + 1) n

/-- Decimal rendering of an integer, as Python's `int.__repr__`. -/
def intRender (n : Int) : List Char :=
  if n < 0 then '-' :: natRender n.natAbs else natRender n.natAbs

/-- `4 * lvl` spaces: the indentation prefix at nesting level `lvl`
for `indent=4`. -/
def indentChars (lvl : Nat) : List Char := List.replicate (4 * lvl) ' '

mutual

/-- Render one JSON value at nesting level `lvl`, as `json.dump` with
`indent=4` writes it. -/
def jrenderVal : Nat → Json → List Char
  | _, .null => ['n', 'u', 'l', 'l']
  | _, .bool true => ['t', 'r', 'u', 'e']
  | _, .bool false => ['f', 'a', 'l', 's', 'e']
  | _, .num n => intRender n
  | _, .str s => renderString s
  | _, .arr .nil => ['[', ']']
  | lvl, .arr (.cons x xs) =>
    '[' :: '\n' :: indentChars (lvl + 1) ++ jrenderVal (lvl + 1) x ++
      jrenderItems (lvl + 1) xs ++ '\n' :: indentChars lvl ++ [']']
  | _, .obj .nil => ['{', '}']
  | lvl, .obj (.cons k v kvs) =>
    '{' :: '\n' :: indentChars (lvl + 1) ++ renderString k ++
      ':' :: ' ' :: jrenderVal (lvl + 1) v ++
      jrenderMembers (lvl + 1) kvs ++ '\n' :: indentChars lvl ++ ['}']

/-- Render the remaining array items, each preceded by `",\n" ++ indent`
(the item separator used when `indent=4`). -/
def jrenderItems : Nat → JsonArr → List Char
  | _, .nil => []
  | lvl, .cons x xs =>
    ',' :: '\n' :: indentChars lvl ++ jrenderVal lvl x ++ jrenderItems lvl xs

/-- Render the remaining object members, each preceded by `",\n" ++ indent`
and using the `": "` key separator. -/
def jrenderMembers : Nat → JsonObj → List Char
  | _, .nil => []
  | lvl, .cons k v kvs =>
    ',' :: '\n' :: indentChars lvl ++ renderString k ++
      ':' :: ' ' :: jrenderVal lvl v ++ jrenderMembers lvl kvs

end

/-- The document produced by `json.dump(j, file, indent=4)`. -/
def jrender (j : Json) : List Char := jrenderVal 0 j

mutual

/-- A size measure on JSON values, used only to show that the parser's
fuel is adequate. -/
def jweight : Json → Nat
  | .null => 1
  | .bool _ => 1
  | .num _ => 1
  | .str _ => 1
  | .arr xs => 1 + aweight xs
  | .obj kvs => 1 + oweight kvs

/-- Size measure on JSON arrays. -/
def aweight : JsonArr → Nat
  | .nil => 1
  | .cons x xs => 1 + jweight x + aweight xs

/-- Size measure on JSON objects. -/
def oweight : JsonObj → Nat
  | .nil => 1
  | .cons _ v kvs => 1 + jweight v + oweight kvs

end

/-! ## Parsing: the model of `json.load`

Mirrors `json.scanner.py_make_scanner` / `json.decoder.JSONObject` /
`JSONArray` / `scanstring`: whitespace is space, tab, newline and carriage
return; strings understand the escapes `\" \\ \/ \b \f \n \r \t \uXXXX`
(surrogate pairs combined, as CPython does) and reject unescaped control
characters; integer literals are `0` or a nonzero digit followed by digits,
optionally negated (float forms, `NaN` and `Infinity` are outside the
model, as are lone surrogate escapes, which Lean characters cannot carry);
after the top-level value only whitespace may remain ("Extra data"
otherwise).  The `fuel` arguments only bound recursion depth; they are
instantiated with bounds derived from the input length, which are always
sufficient because every step consumes at least one character. -/

/-- Span of leading decimal digits. -/
def takeDigits : List Char → List Char × List Char
  | [] => ([], [])
  | c :: t =>
    if isDigitChar c then
      let p := takeDigits t
      (c :: p.1, p.2)
    else ([], c :: t)

/-- Value of a most-significant-first digit string. -/
def digitsToNat (ds : List Char) : Nat :=
  ds.foldl (fun a c => 10 * a + digitVal c) 0

/-- One unsigned integer token, with Python's leading-zero rule: a literal
starting with `0` is exactly the token `0`. -/
def parseNatToken : List Char → Option (Nat × List Char)
  | [] => none
  | c :: t =>
    if c = '0' then some (0, t)
    else if isDigitChar c then
      let p := takeDigits t
      some (digitsToNat (c :: p.1), p.2)
    else none

/-- One signed integer token. -/
def parseIntToken (l : List Char) : Option (Int × List Char) :=
  match l with
  | [] => none
  | c :: t =>
    if c = '-' then (parseNatToken t).map fun p => (-(p.1 : Int), p.2)
    else (parseNatToken (c :: t)).map fun p => ((p.1 : Int), p.2)

/-- Four hexadecimal digits, as in a `\uXXXX` escape. -/
def parseHex4 : List Char → Option (Nat × List Char)
  | c1 :: c2 :: c3 :: c4 :: t =>
    match hexVal c1, hexVal c2, hexVal c3, hexVal c4 with
    | some d1, some d2, some d3, some d4 =>
      some (4096 * d1 + 256 * d2 + 16 * d3 + d4, t)
    | _, _, _, _ => none
  | _ => none

/-- Decoding of the single-character escapes, Python's `BACKSLASH` table. -/
def escDecode (e : Char) : Option Char :=
  if e = '"' then some '"'
  else if e = '\\' then some '\\'
  else if e = '/' then some '/'
  else if e = 'b' then some (Char.ofNat 8)
  else if e = 'f' then some (Char.ofNat 12)
  else if e = 'n' then some '\n'
  else if e = 'r' then some '\r'
  else if e = 't' then some '\t'
  else none

/-- A `\uXXXX` escape (after the `\u`): four hex digits, combining a
high-surrogate/low-surrogate pair into one scalar value exactly as
CPython's `scanstring` does.  Lone surrogates are rejected (Lean characters
cannot carry them; unreachable from `json.dump` output). -/
def parseUEscape (psb : List Char → Option (List Char × List Char))
    (t2 : List Char) : Option (List Char × List Char) :=
  (parseHex4 t2).bind fun nt =>
    if 0xd800 ≤ nt.1 ∧ nt.1 < 0xdc00 then
      if nt.2.take 2 = ['\\', 'u'] then
        (parseHex4 (nt.2.drop 2)).bind fun mt =>
          if 0xdc00 ≤ mt.1 ∧ mt.1 < 0xe000 then
            (psb mt.2).map fun p =>
              (Char.ofNat
                  (0x10000 + 1024 * (nt.1 - 0xd800) + (mt.1 - 0xdc00))
                :: p.1, p.2)
          else none
      else none
    else if 0xdc00 ≤ nt.1 ∧ nt.1 < 0xe000 then none
    else (psb nt.2).map fun p => (Char.ofNat nt.1 :: p.1, p.2)

/-- The body of a JSON string literal, after the opening quote, up to and
including the closing quote.  One recursion step per decoded character, so
`fuel` = input length is always enough. -/
def parseStringBody : Nat → List Char → Option (List Char × List Char)
  | 0, _ => none
  | fuel + 1, l =>
    match l with
    | [] => none
    | c :: t =>
      if c = '"' then some ([], t)
      else if c = '\\' then
        match t with
        | [] => none
        | e :: t2 =>
          if e = 'u' then parseUEscape (parseStringBody fuel) t2
          else
            (escDecode e).bind fun d =>
              (parseStringBody fuel t2).map fun p => (d :: p.1, p.2)
      else if c.toNat < 0x20 then none
      else (parseStringBody fuel t).map fun p => (c :: p.1, p.2)

/-- After a completed array element: expect `,` (then the next element via
`pv`) or `]`, with whitespace allowed, as `json.decoder.JSONArray` does. -/
def parseArrayTail (pv : List Char → Option (Json × List Char)) :
    Nat → List Char → Option (List Json × List Char)
  | 0, _ => none
  | fuel + 1, l =>
    if (skipWs l).head? = some ',' then
      (pv (skipWs (skipWs l).tail)).bind fun vr =>
        (parseArrayTail pv fuel vr.2).bind fun vsr =>
          some (vr.1 :: vsr.1, vsr.2)
    else if (skipWs l).head? = some ']' then some ([], (skipWs l).tail)
    else none

/-- After a completed object member: expect `,` (then `"key" : value`) or
`}`, with whitespace allowed, as `json.decoder.JSONObject` does. -/
def parseObjTail (pv : List Char → Option (Json × List Char)) :
    Nat → List Char → Option (List (String × Json) × List Char)
  | 0, _ => none
  | fuel + 1, l =>
    if (skipWs l).head? = some ',' then
      if (skipWs (skipWs l).tail).head? = some '"' then
        (parseStringBody ((skipWs (skipWs l).tail).tail.length + 1)
            (skipWs (skipWs l).tail).tail).bind fun kr =>
          if (skipWs kr.2).head? = some ':' then
            (pv (skipWs (skipWs kr.2).tail)).bind fun vr =>
              (parseObjTail pv fuel vr.2).bind fun kvr =>
                some ((String.mk kr.1, vr.1) :: kvr.1, kvr.2)
          else none
      else none
    else if (skipWs l).head? = some '}' then some ([], (skipWs l).tail)
    else none

/-- One JSON value, dispatched on its first character exactly as
`scan_once` does: string, object, array, the three keywords, then a
number.  No leading whitespace is consumed (callers skip it). -/
def parseValue : Nat → List Char → Option (Json × List Char)
  | 0, _ => none
  | fuel + 1, l =>
    match l with
    | [] => none
    | c :: rest =>
      if c = '"' then
        (parseStringBody (rest.length + 1) rest).map fun p =>
          (Json.str (String.mk p.1), p.2)
      else if c = '[' then
        if (skipWs rest).head? = some ']' then
          some (Json.arr .nil, (skipWs rest).tail)
        else
          (parseValue fuel (skipWs rest)).bind fun vr =>
            (parseArrayTail (parseValue fuel) fuel vr.2).bind fun vsr =>
              some (Json.arr (JsonArr.ofList (vr.1 :: vsr.1)), vsr.2)
      else if c = '{' then
        if (skipWs rest).head? = some '}' then
          some (Json.obj .nil, (skipWs rest).tail)
        else if (skipWs rest).head? = some '"' then
          (parseStringBody ((skipWs rest).tail.length + 1)
              (skipWs rest).tail).bind fun kr =>
            if (skipWs kr.2).head? = some ':' then
              (parseValue fuel (skipWs (skipWs kr.2).tail)).bind fun vr =>
                (parseObjTail (parseValue fuel) fuel vr.2).bind fun kvr =>
                  some (Json.obj (JsonObj.ofList ((String.mk kr.1, vr.1)
                    :: kvr.1)), kvr.2)
            else none
        else none
      else if l.take 4 = ['n', 'u', 'l', 'l'] then some (Json.null, l.drop 4)
      else if l.take 4 = ['t', 'r', 'u', 'e'] then
        some (Json.bool true, l.drop 4)
      else if l.take 5 = ['f', 'a', 'l', 's', 'e'] then
        some (Json.bool false, l.drop 5)
      else (parseIntToken l).map fun p => (Json.num p.1, p.2)

/-- The model of `json.loads` on a whole document: skip leading whitespace,
read one value, and require that only whitespace follows (CPython's
"Extra data" check). -/
def jparse (s : String) : Option Json :=
  (parseValue ((skipWs s.data).length + 1) (skipWs s.data)).bind fun jr =>
    if (skipWs jr.2).isEmpty then some jr.1 else none

/-! ## Round-trip: digit-level lemmas -/

theorem digitChar_isDigit {d : Nat} (h : d < 10) :
    isDigitChar (digitChar d) = true := by
  interval_cases d <;> decide

theorem digitVal_digitChar {d : Nat} (h : d < 10) : digitVal (digitChar d) = d := by
  interval_cases d <;> decide

theorem digitChar_ne_zero {d : Nat} (h1 : 1 ≤ d) (h2 : d < 10) :
    digitChar d ≠ '0' := by
  interval_cases d <;> decide

theorem isDigit_not_ws {c : Char} (h : isDigitChar c = true) :
    isWsChar c = false := by
  cases hw : isWsChar c with
  | false => rfl
  | true =>
    exfalso
    simp only [isWsChar, Bool.or_eq_true, decide_eq_true_eq] at hw
    rcases hw with ((h1 | h1) | h1) | h1 <;> (subst h1; exact absurd h (by decide))

theorem natRenderAux_fuel_irrel :
    ∀ f1 f2 n, n < f1 → n < f2 → natRenderAux f1 n = natRenderAux f2 n := by
  intro f1
  induction f1 with
  | zero => intro f2 n h1; omega
  | succ f ih =>
    intro f2 n h1 h2
    match f2, h2 with
    | f2 + 1, _ =>
      simp only [natRenderAux]
      by_cases hn : n < 10
      · simp [hn]
      · have hd : n / 10 < n := Nat.div_lt_self (by omega) (by omega)
        simp only [if_neg hn]
        rw [ih f2 (n / 10) (by omega) (by omega)]

theorem natRender_unfold {n : Nat} (h : 10 ≤ n) :
    natRender n = natRender (n / 10) ++ [digitChar (n % 10)] := by
  have hd : n / 10 < n := Nat.div_lt_self (by omega) (by omega)
  show natRenderAux (n + 1) n = _
  simp only [natRenderAux, if_neg (by omega : ¬ n < 10)]
  rw [natRenderAux_fuel_irrel n (n / 10 + 1) (n / 10) (by omega) (by omega)]
  rfl

theorem natRender_small {n : Nat} (h : n < 10) : natRender n = [digitChar n] := by
  show natRenderAux (n + 1) n = _
  simp [natRenderAux, h]

theorem natRender_ne_nil (n : Nat) : natRender n ≠ [] := by
  by_cases h : n < 10
  · rw [natRender_small h]; simp
  · rw [natRender_unfold (by omega)]; simp

theorem natRender_all_digits (n : Nat) :
    ∀ c ∈ natRender n, isDigitChar c = true := by
  induction n using Nat.strong_induction_on with
  | _ n ih =>
    by_cases h : n < 10
    · rw [natRender_small h]
      intro c hc
      simp only [List.mem_singleton] at hc
      subst hc
      exact digitChar_isDigit h
    · rw [natRender_unfold (by omega)]
      intro c hc
      rcases List.mem_append.mp hc with h1 | h2
      · exact ih (n / 10) (Nat.div_lt_self (by omega) (by omega)) c h1
      · simp only [List.mem_singleton] at h2
        subst h2
        exact digitChar_isDigit (Nat.mod_lt _ (by omega))

theorem digitsToNat_natRender (n : Nat) : digitsToNat (natRender n) = n := by
  induction n using Nat.strong_induction_on with
  | _ n ih =>
    by_cases h : n < 10
    · rw [natRender_small h]
      simp [digitsToNat, digitVal_digitChar h]
    · rw [natRender_unfold (by omega)]
      unfold digitsToNat
      rw [List.foldl_append]
      have := ih (n / 10) (Nat.div_lt_self (by omega) (by omega))
      unfold digitsToNat at this
      rw [this]
      simp only [List.foldl_cons, List.foldl_nil]
      rw [digitVal_digitChar (Nat.mod_lt _ (by omega))]
      omega

theorem natRender_head_ne_zero {n : Nat} (h : 1 ≤ n) :
    ∀ c t, natRender n = c :: t → c ≠ '0' := by
  induction n using Nat.strong_induction_on with
  | _ n ih =>
    by_cases hn : n < 10
    · rw [natRender_small hn]
      intro c t hct
      injection hct with h1 _
      subst h1
      exact digitChar_ne_zero h hn
    · rw [natRender_unfold (by omega)]
      intro c t hct
      have h10 : 1 ≤ n / 10 := by
        have := Nat.div_le_div_right (c := 10) (by omega : 10 ≤ n)
        simpa using this
      rcases hr : natRender (n / 10) with _ | ⟨c', t'⟩
      · exact absurd hr (natRender_ne_nil _)
      · rw [hr] at hct
        simp only [List.cons_append] at hct
        injection hct with h1 _
        subst h1
        exact ih (n / 10) (Nat.div_lt_self (by omega) (by omega)) h10 c' t' hr

/-- Digits to the left of a non-digit are taken whole by `takeDigits`. -/
theorem takeDigits_digits_append {ds rest : List Char}
    (hd : ∀ c ∈ ds, isDigitChar c = true)
    (hr : ∀ c t, rest = c :: t → isDigitChar c = false) :
    takeDigits (ds ++ rest) = (ds, rest) := by
  induction ds with
  | nil =>
    match rest with
    | [] => rfl
    | c :: t =>
      simp only [List.nil_append, takeDigits, hr c t rfl]
      simp
  | cons c ds ih =>
    have hc := hd c (by simp)
    have ihh := ih fun x hx => hd x (by simp [hx])
    simp only [List.cons_append, takeDigits, hc, List.append_eq, ihh, if_true]

theorem parseNatToken_natRender (n : Nat) (rest : List Char)
    (hr : ∀ c t, rest = c :: t → isDigitChar c = false) :
    parseNatToken (natRender n ++ rest) = some (n, rest) := by
  by_cases h0 : n = 0
  · subst h0
    rw [natRender_small (by omega)]
    have hz : digitChar 0 = '0' := by decide
    rw [hz]
    simp [parseNatToken]
  · rcases hn : natRender n with _ | ⟨c, t⟩
    · exact absurd hn (natRender_ne_nil _)
    · have hsplit : natRender n ++ rest = c :: (t ++ rest) := by
        rw [hn]; rfl
      have hcz : c ≠ '0' := natRender_head_ne_zero (by omega) c t hn
      have hdig : isDigitChar c = true := by
        have := natRender_all_digits n
        rw [hn] at this
        exact this c (by simp)
      have htd : takeDigits (t ++ rest) = (t, rest) := by
        apply takeDigits_digits_append
        · intro x hx
          have := natRender_all_digits n
          rw [hn] at this
          exact this x (by simp [hx])
        · exact hr
      have hv : digitsToNat (c :: t) = n := by
        rw [← hn]; exact digitsToNat_natRender n
      show (if c = '0' then some (0, t ++ rest)
        else if isDigitChar c then
          some (digitsToNat (c :: (takeDigits (t ++ rest)).1),
            (takeDigits (t ++ rest)).2)
        else none) = some (n, rest)
      rw [if_neg hcz, hdig, if_pos rfl, htd, hv]

theorem parseIntToken_intRender (n : Int) (rest : List Char)
    (hr : ∀ c t, rest = c :: t → isDigitChar c = false) :
    parseIntToken (intRender n ++ rest) = some (n, rest) := by
  by_cases hneg : n < 0
  · rw [intRender, if_pos hneg]
    show (if ('-' : Char) = '-' then
        (parseNatToken (natRender n.natAbs ++ rest)).map
          fun p => (-(p.1 : Int), p.2)
      else (parseNatToken ('-' :: (natRender n.natAbs ++ rest))).map
          fun p => ((p.1 : Int), p.2)) = some (n, rest)
    rw [if_pos rfl, parseNatToken_natRender n.natAbs rest hr]
    show some (-(n.natAbs : Int), rest) = some (n, rest)
    have hv : -(n.natAbs : Int) = n := by omega
    rw [hv]
  · rw [intRender, if_neg hneg]
    rcases hn : natRender n.natAbs with _ | ⟨c, t⟩
    · exact absurd hn (natRender_ne_nil _)
    · have hdig : isDigitChar c = true := by
        have := natRender_all_digits n.natAbs
        rw [hn] at this
        exact this c (by simp)
      have hcm : c ≠ '-' := by
        intro hc
        subst hc
        exact absurd hdig (by decide)
      have hsplit : natRender n.natAbs ++ rest = c :: (t ++ rest) := by
        rw [hn]; rfl
      show (if c = '-' then
          (parseNatToken (t ++ rest)).map fun p => (-(p.1 : Int), p.2)
        else (parseNatToken (c :: (t ++ rest))).map
          fun p => ((p.1 : Int), p.2)) = some (n, rest)
      rw [if_neg hcm, ← hsplit, parseNatToken_natRender n.natAbs rest hr]
      show some ((n.natAbs : Int), rest) = some (n, rest)
      have hv : ((n.natAbs : Int)) = n := by omega
      rw [hv]

/-! ## Round-trip: whitespace lemmas -/

theorem skipWs_cons_not_ws {c : Char} {l : List Char} (h : isWsChar c = false) :
    skipWs (c :: l) = c :: l := by
  simp [skipWs, List.dropWhile_cons, h]

theorem skipWs_cons_ws {c : Char} {l : List Char} (h : isWsChar c = true) :
    skipWs (c :: l) = skipWs l := by
  simp [skipWs, List.dropWhile_cons, h]

theorem skipWs_append_ws {w : List Char} (hw : ∀ c ∈ w, isWsChar c = true)
    (l : List Char) : skipWs (w ++ l) = skipWs l := by
  induction w with
  | nil => rfl
  | cons c t ih =>
    simp only [List.cons_append, skipWs, List.dropWhile_cons, hw c (by simp),
      if_true]
    exact ih fun x hx => hw x (by simp [hx])

theorem skipWs_indent_append (lvl : Nat) (l : List Char) :
    skipWs (indentChars lvl ++ l) = skipWs l := by
  apply skipWs_append_ws
  intro c hc
  have := List.eq_of_mem_replicate hc
  subst this
  rfl

theorem skipWs_newline_indent (lvl : Nat) (l : List Char) :
    skipWs ('\n' :: (indentChars lvl ++ l)) = skipWs l := by
  rw [skipWs_cons_ws (by rfl), skipWs_indent_append]

/-! ## Round-trip: string-escape lemmas -/

theorem hexDigitChar_hexVal {d : Nat} (h : d < 16) :
    hexVal (hexDigitChar d) = some d := by
  interval_cases d <;> decide

theorem parseHex4_hex4 {n : Nat} (h : n < 65536) (t : List Char) :
    parseHex4 (hex4 n ++ t) = some (n, t) := by
  show parseHex4 (hexDigitChar (n / 4096 % 16) :: hexDigitChar (n / 256 % 16)
    :: hexDigitChar (n / 16 % 16) :: hexDigitChar (n % 16) :: t) = some (n, t)
  simp only [parseHex4,
    hexDigitChar_hexVal (show n / 4096 % 16 < 16 by omega),
    hexDigitChar_hexVal (show n / 256 % 16 < 16 by omega),
    hexDigitChar_hexVal (show n / 16 % 16 < 16 by omega),
    hexDigitChar_hexVal (show n % 16 < 16 by omega)]
  have hv : 4096 * (n / 4096 % 16) + 256 * (n / 256 % 16) +
      16 * (n / 16 % 16) + n % 16 = n := by omega
  rw [hv]

/-- Valid scalar values avoid the surrogate range. -/
theorem char_valid_range (c : Char) :
    c.toNat < 0xd800 ∨ (0xdfff < c.toNat ∧ c.toNat < 0x110000) := c.valid

theorem parseStringBody_cons (fuel : Nat) (c : Char) (t : List Char) :
    parseStringBody (fuel + 1) (c :: t) =
      if c = '"' then some ([], t)
      else if c = '\\' then
        match t with
        | [] => none
        | e :: t2 =>
          if e = 'u' then parseUEscape (parseStringBody fuel) t2
          else
            (escDecode e).bind fun d =>
              (parseStringBody fuel t2).map fun p => (d :: p.1, p.2)
      else if c.toNat < 0x20 then none
      else (parseStringBody fuel t).map fun p => (c :: p.1, p.2) := rfl

theorem parseStringBody_backslash (fuel : Nat) (e : Char) (t2 : List Char) :
    parseStringBody (fuel + 1) ('\\' :: e :: t2) =
      if e = 'u' then parseUEscape (parseStringBody fuel) t2
      else
        (escDecode e).bind fun d =>
          (parseStringBody fuel t2).map fun p => (d :: p.1, p.2) := by
  rw [parseStringBody_cons, if_neg (by decide : ¬ ('\\' : Char) = '"'),
    if_pos rfl]

/-- One decoded character per escape group: parsing the escape of `c`
prepends `c` and proceeds with one unit less fuel. -/
theorem parseStringBody_escapeChar (c : Char) (t : List Char) (fuel : Nat) :
    parseStringBody (fuel + 1) (escapeChar c ++ t) =
      (parseStringBody fuel t).map fun p => (c :: p.1, p.2) := by
  by_cases h1 : c = '"'
  · subst h1; rfl
  by_cases h2 : c = '\\'
  · subst h2; rfl
  by_cases h3 : c = Char.ofNat 8
  · subst h3; rfl
  by_cases h4 : c = Char.ofNat 12
  · subst h4; rfl
  by_cases h5 : c = '\n'
  · subst h5; rfl
  by_cases h6 : c = '\r'
  · subst h6; rfl
  by_cases h7 : c = '\t'
  · subst h7; rfl
  by_cases h8 : (0x20 ≤ c.toNat && c.toNat ≤ 0x7e) = true
  · have he : escapeChar c = [c] := by
      unfold escapeChar
      rw [if_neg h1, if_neg h2, if_neg h3, if_neg h4, if_neg h5, if_neg h6,
        if_neg h7, if_pos h8]
    rw [he]
    have h20 : ¬ c.toNat < 0x20 := by
      simp only [Bool.and_eq_true, decide_eq_true_eq] at h8
      omega
    show parseStringBody (fuel + 1) (c :: t) = _
    rw [parseStringBody_cons, if_neg h1, if_neg h2, if_neg h20]
  by_cases h9 : c.toNat < 0x10000
  · have he : escapeChar c = '\\' :: 'u' :: hex4 c.toNat := by
      unfold escapeChar
      rw [if_neg h1, if_neg h2, if_neg h3, if_neg h4, if_neg h5, if_neg h6,
        if_neg h7, if_neg h8, if_pos h9]
    rw [he]
    show parseStringBody (fuel + 1) ('\\' :: 'u' :: (hex4 c.toNat ++ t)) = _
    rw [parseStringBody_backslash, if_pos rfl]
    unfold parseUEscape
    rw [parseHex4_hex4 h9 t]
    have hsur : ¬ (0xd800 ≤ c.toNat ∧ c.toNat < 0xdc00) := by
      rcases char_valid_range c with h | ⟨h, _⟩ <;> omega
    have hsur2 : ¬ (0xdc00 ≤ c.toNat ∧ c.toNat < 0xe000) := by
      rcases char_valid_range c with h | ⟨h, _⟩ <;> omega
    simp only [Option.some_bind, if_neg hsur, if_neg hsur2, Char.ofNat_toNat]
  · have hbig : 0x10000 ≤ c.toNat ∧ c.toNat < 0x110000 := by
      rcases char_valid_range c with h | ⟨_, h⟩ <;> omega
    have he : escapeChar c =
        ('\\' :: 'u' :: hex4 (0xd800 + (c.toNat - 0x10000) / 1024)) ++
        ('\\' :: 'u' :: hex4 (0xdc00 + (c.toNat - 0x10000) % 1024)) := by
      unfold escapeChar
      rw [if_neg h1, if_neg h2, if_neg h3, if_neg h4, if_neg h5, if_neg h6,
        if_neg h7, if_neg h8, if_neg h9]
    rw [he]
    have hq : (c.toNat - 0x10000) / 1024 < 1024 := by
      apply Nat.div_lt_of_lt_mul
      omega
    have hm : (c.toNat - 0x10000) % 1024 < 1024 :=
      Nat.mod_lt _ (by omega)
    have hhi : 0xd800 + (c.toNat - 0x10000) / 1024 < 65536 := by omega
    have hlo : 0xdc00 + (c.toNat - 0x10000) % 1024 < 65536 := by omega
    show parseStringBody (fuel + 1)
      ('\\' :: 'u' :: (hex4 (0xd800 + (c.toNat - 0x10000) / 1024) ++
        ('\\' :: 'u' :: hex4 (0xdc00 + (c.toNat - 0x10000) % 1024) ++ t))) = _
    rw [parseStringBody_backslash, if_pos rfl]
    unfold parseUEscape
    rw [parseHex4_hex4 hhi]
    rw [Option.some_bind]
    rw [if_pos (show (0xd800 : Nat) ≤ 0xd800 + (c.toNat - 0x10000) / 1024 ∧
        0xd800 + (c.toNat - 0x10000) / 1024 < 0xdc00 by
      constructor <;> omega)]
    rw [if_pos (show (('\\' :: 'u' ::
        hex4 (0xdc00 + (c.toNat - 0x10000) % 1024) ++ t).take 2)
        = ['\\', 'u'] from rfl)]
    rw [show (('\\' :: 'u' ::
        hex4 (0xdc00 + (c.toNat - 0x10000) % 1024) ++ t).drop 2)
        = hex4 (0xdc00 + (c.toNat - 0x10000) % 1024) ++ t from rfl]
    rw [parseHex4_hex4 hlo]
    rw [Option.some_bind]
    rw [if_pos (show (0xdc00 : Nat) ≤ 0xdc00 + (c.toNat - 0x10000) % 1024 ∧
        0xdc00 + (c.toNat - 0x10000) % 1024 < 0xe000 by
      constructor <;> omega)]
    have hv : 0x10000 +
        1024 * ((0xd800 + (c.toNat - 0x10000) / 1024) - 0xd800) +
        ((0xdc00 + (c.toNat - 0x10000) % 1024) - 0xdc00) = c.toNat := by
      have := Nat.div_add_mod (c.toNat - 0x10000) 1024
      omega
    rw [hv, Char.ofNat_toNat]

theorem escapeChar_ne_nil (c : Char) : escapeChar c ≠ [] := by
  unfold escapeChar
  split
  · simp
  split
  · simp
  split
  · simp
  split
  · simp
  split
  · simp
  split
  · simp
  split
  · simp
  split
  · simp
  split
  · simp [hex4]
  · simp [hex4]

theorem escapeList_length (cs : List Char) :
    cs.length ≤ (escapeList cs).length := by
  induction cs with
  | nil => simp [escapeList]
  | cons c t ih =>
    show t.length + 1 ≤ (escapeChar c ++ escapeList t).length
    rw [List.length_append]
    have h1 : 1 ≤ (escapeChar c).length := by
      rcases h : escapeChar c with _ | _
      · exact absurd h (escapeChar_ne_nil c)
      · simp
    omega

/-- Parsing the escaped body of `cs` followed by the closing quote yields
exactly `cs`. -/
theorem parseStringBody_escapeList :
    ∀ (cs : List Char) (t : List Char) (fuel : Nat), cs.length < fuel →
      parseStringBody fuel (escapeList cs ++ '"' :: t) = some (cs, t) := by
  intro cs
  induction cs with
  | nil =>
    intro t fuel hf
    match fuel, hf with
    | f + 1, _ =>
      show parseStringBody (f + 1) ('"' :: t) = some ([], t)
      rw [parseStringBody_cons, if_pos rfl]
  | cons c cs ih =>
    intro t fuel hf
    match fuel, hf with
    | f + 1, hf =>
      show parseStringBody (f + 1) (escapeChar c ++ escapeList cs ++ '"' :: t)
        = some (c :: cs, t)
      have hf2 : cs.length < f := by
        simp only [List.length_cons] at hf
        omega
      rw [List.append_assoc, parseStringBody_escapeChar, ih t f hf2]
      rfl

/-- Parsing a rendered string literal from just after its opening quote. -/
theorem parseStringBody_renderString (s : String) (t : List Char) :
    parseStringBody ((escapeList s.data ++ '"' :: t).length + 1)
      (escapeList s.data ++ '"' :: t) = some (s.data, t) := by
  apply parseStringBody_escapeList
  have h1 := escapeList_length s.data
  have h2 : (escapeList s.data ++ '"' :: t).length =
      (escapeList s.data).length + (t.length + 1) := by
    rw [List.length_append]
    simp
  omega

/-! ## Round-trip: heads of rendered values -/

theorem not_ws_not_bracket_of_digit {c : Char} (h : isDigitChar c = true) :
    isWsChar c = false ∧ c ≠ ']' ∧ c ≠ '}' := by
  refine ⟨isDigit_not_ws h, ?_, ?_⟩ <;>
    · intro hc
      subst hc
      exact absurd h (by decide)

/-- The opening characters a rendered value can start with are neither
whitespace nor a closing bracket. -/
theorem opener_ok : ∀ c ∈ ['n', 't', 'f', '"', '[', '\x7b'],
    isWsChar c = false ∧ c ≠ ']' ∧ c ≠ '}' := by decide

/-- Every rendered JSON value starts with a non-whitespace character that
is not a closing bracket. -/
theorem jrenderVal_cons (lvl : Nat) (j : Json) :
    ∃ c t, jrenderVal lvl j = c :: t ∧ isWsChar c = false ∧
      c ≠ ']' ∧ c ≠ '}' := by
  cases j with
  | num n =>
    by_cases hneg : n < 0
    · refine ⟨'-', natRender n.natAbs, ?_, by decide, by decide, by decide⟩
      show intRender n = _
      rw [intRender, if_pos hneg]
    · rcases hn : natRender n.natAbs with _ | ⟨c, t⟩
      · exact absurd hn (natRender_ne_nil _)
      · have hd : isDigitChar c = true := by
          have := natRender_all_digits n.natAbs
          rw [hn] at this
          exact this c (by simp)
        obtain ⟨hw, hb1, hb2⟩ := not_ws_not_bracket_of_digit hd
        refine ⟨c, t, ?_, hw, hb1, hb2⟩
        show intRender n = _
        rw [intRender, if_neg hneg, hn]
  | null =>
    exact ⟨'n', _, rfl, opener_ok _ (by decide)⟩
  | bool b =>
    cases b
    case true => exact ⟨'t', _, rfl, opener_ok _ (by decide)⟩
    case false => exact ⟨'f', _, rfl, opener_ok _ (by decide)⟩
  | str s =>
    exact ⟨'"', _, rfl, opener_ok _ (by decide)⟩
  | arr xs =>
    cases xs
    case nil => exact ⟨'[', _, rfl, opener_ok _ (by decide)⟩
    case cons x xs => exact ⟨'[', _, rfl, opener_ok _ (by decide)⟩
  | obj kvs =>
    cases kvs
    case nil => exact ⟨'{', _, rfl, opener_ok _ (by decide)⟩
    case cons k v kvs => exact ⟨'{', _, rfl, opener_ok _ (by decide)⟩

theorem skipWs_jrender (lvl : Nat) (j : Json) (rest : List Char) :
    skipWs (jrenderVal lvl j ++ rest) = jrenderVal lvl j ++ rest := by
  obtain ⟨c, t, hct, hw, _, _⟩ := jrenderVal_cons lvl j
  rw [hct, List.cons_append, skipWs_cons_not_ws hw]

/-- The side condition on the text after a rendered value: it must not
begin with a digit (so a rendered number is not extended). -/
def headNotDigit (l : List Char) : Prop :=
  ∀ c t, l = c :: t → isDigitChar c = false

theorem headNotDigit_nil : headNotDigit [] := by
  intro c t h
  cases h

theorem headNotDigit_cons {c : Char} (h : isDigitChar c = false)
    (t : List Char) : headNotDigit (c :: t) := by
  intro c' t' h'
  injection h' with h1 _
  subst h1
  exact h

/-! ## Round-trip: weights, conversions and tail lemmas -/

theorem JsonArr.ofList_toList : ∀ (xs : JsonArr),
    JsonArr.ofList xs.toList = xs
  | .nil => rfl
  | .cons x xs => by
    show JsonArr.cons x (JsonArr.ofList xs.toList) = JsonArr.cons x xs
    rw [JsonArr.ofList_toList xs]

theorem JsonObj.obj_ofList_toList : ∀ (kvs : JsonObj),
    JsonObj.ofList kvs.toList = kvs
  | .nil => rfl
  | .cons k v kvs => by
    show JsonObj.cons k v (JsonObj.ofList kvs.toList) = JsonObj.cons k v kvs
    rw [JsonObj.obj_ofList_toList kvs]

theorem jweight_pos (j : Json) : 1 ≤ jweight j := by
  cases j <;> simp [jweight]

theorem aweight_items : ∀ (xs : JsonArr), xs.toList.length + 1 ≤ aweight xs
  | .nil => by simp [JsonArr.toList, aweight]
  | .cons x xs => by
    have h1 := aweight_items xs
    have h2 := jweight_pos x
    simp only [JsonArr.toList, List.length_cons, aweight]
    omega

theorem oweight_items : ∀ (kvs : JsonObj),
    kvs.toList.length + 1 ≤ oweight kvs
  | .nil => by simp [JsonObj.toList, oweight]
  | .cons k v kvs => by
    have h1 := oweight_items kvs
    have h2 := jweight_pos v
    simp only [JsonObj.toList, List.length_cons, oweight]
    omega

theorem jweight_lt_of_mem : ∀ {xs : JsonArr} {y : Json},
    y ∈ xs.toList → jweight y < aweight xs
  | .nil, y, h => by cases h
  | .cons x xs, y, h => by
    rcases List.mem_cons.mp h with h1 | h1
    · subst h1
      have := aweight_items xs
      simp only [aweight]
      omega
    · have := jweight_lt_of_mem h1
      have := jweight_pos x
      simp only [aweight]
      omega

theorem jweight_lt_of_mem_obj : ∀ {kvs : JsonObj} {k : String} {v : Json},
    (k, v) ∈ kvs.toList → jweight v < oweight kvs
  | .nil, k, v, h => by cases h
  | .cons k' v' kvs, k, v, h => by
    rcases List.mem_cons.mp h with h1 | h1
    · injection h1 with _ h2
      subst h2
      have := oweight_items kvs
      simp only [oweight]
      omega
    · have := jweight_lt_of_mem_obj h1
      have := jweight_pos v'
      simp only [oweight]
      omega

theorem headNotDigit_newline (Y : List Char) : headNotDigit ('\n' :: Y) :=
  headNotDigit_cons (by decide) Y

theorem headNotDigit_items (lvl : Nat) (xs : JsonArr) (X : List Char)
    (hX : headNotDigit X) : headNotDigit (jrenderItems lvl xs ++ X) := by
  cases xs with
  | nil => simpa [jrenderItems]
  | cons x xs =>
    show headNotDigit (',' :: _)
    exact headNotDigit_cons (by decide) _

theorem headNotDigit_members (lvl : Nat) (kvs : JsonObj) (X : List Char)
    (hX : headNotDigit X) : headNotDigit (jrenderMembers lvl kvs ++ X) := by
  cases kvs with
  | nil => simpa [jrenderMembers]
  | cons k v kvs =>
    show headNotDigit (',' :: _)
    exact headNotDigit_cons (by decide) _

/-- `parseValue` on one fuel step, spelled out (definitional unfolding). -/
theorem parseValue_cons (fuel : Nat) (c : Char) (rest : List Char) :
    parseValue (fuel + 1) (c :: rest) =
      (if c = '"' then
        (parseStringBody (rest.length + 1) rest).map fun p =>
          (Json.str (String.mk p.1), p.2)
      else if c = '[' then
        if (skipWs rest).head? = some ']' then
          some (Json.arr .nil, (skipWs rest).tail)
        else
          (parseValue fuel (skipWs rest)).bind fun vr =>
            (parseArrayTail (parseValue fuel) fuel vr.2).bind fun vsr =>
              some (Json.arr (JsonArr.ofList (vr.1 :: vsr.1)), vsr.2)
      else if c = '{' then
        if (skipWs rest).head? = some '}' then
          some (Json.obj .nil, (skipWs rest).tail)
        else if (skipWs rest).head? = some '"' then
          (parseStringBody ((skipWs rest).tail.length + 1)
              (skipWs rest).tail).bind fun kr =>
            if (skipWs kr.2).head? = some ':' then
              (parseValue fuel (skipWs (skipWs kr.2).tail)).bind fun vr =>
                (parseObjTail (parseValue fuel) fuel vr.2).bind fun kvr =>
                  some (Json.obj (JsonObj.ofList ((String.mk kr.1, vr.1)
                    :: kvr.1)), kvr.2)
            else none
        else none
      else if (c :: rest).take 4 = ['n', 'u', 'l', 'l'] then
        some (Json.null, (c :: rest).drop 4)
      else if (c :: rest).take 4 = ['t', 'r', 'u', 'e'] then
        some (Json.bool true, (c :: rest).drop 4)
      else if (c :: rest).take 5 = ['f', 'a', 'l', 's', 'e'] then
        some (Json.bool false, (c :: rest).drop 5)
      else (parseIntToken (c :: rest)).map fun p => (Json.num p.1, p.2)) :=
  rfl

/-- `parseArrayTail` on one fuel step, spelled out. -/
theorem parseArrayTail_succ (pv : List Char → Option (Json × List Char))
    (fuel : Nat) (l : List Char) :
    parseArrayTail pv (fuel + 1) l =
      (if (skipWs l).head? = some ',' then
        (pv (skipWs (skipWs l).tail)).bind fun vr =>
          (parseArrayTail pv fuel vr.2).bind fun vsr =>
            some (vr.1 :: vsr.1, vsr.2)
      else if (skipWs l).head? = some ']' then some ([], (skipWs l).tail)
      else none) := rfl

/-- `parseObjTail` on one fuel step, spelled out. -/
theorem parseObjTail_succ (pv : List Char → Option (Json × List Char))
    (fuel : Nat) (l : List Char) :
    parseObjTail pv (fuel + 1) l =
      (if (skipWs l).head? = some ',' then
        if (skipWs (skipWs l).tail).head? = some '"' then
          (parseStringBody ((skipWs (skipWs l).tail).tail.length + 1)
              (skipWs (skipWs l).tail).tail).bind fun kr =>
            if (skipWs kr.2).head? = some ':' then
              (pv (skipWs (skipWs kr.2).tail)).bind fun vr =>
                (parseObjTail pv fuel vr.2).bind fun kvr =>
                  some ((String.mk kr.1, vr.1) :: kvr.1, kvr.2)
            else none
        else none
      else if (skipWs l).head? = some '}' then some ([], (skipWs l).tail)
      else none) := rfl

/-- A keyword check fails when the first character already differs. -/
theorem take_cons_ne {c a : Char} {t pat : List Char} (n : Nat)
    (h : ¬ c = a) : ¬ ((c :: t).take (n + 1) = a :: pat) := by
  intro hh
  rw [List.take_succ_cons] at hh
  injection hh with h1 _
  exact h h1

theorem digit_head_dispatch {c : Char} (h : isDigitChar c = true) :
    c ≠ '"' ∧ c ≠ '[' ∧ c ≠ '{' ∧ c ≠ 'n' ∧ c ≠ 't' ∧ c ≠ 'f' ∧ c ≠ '-' := by
  refine ⟨?_, ?_, ?_, ?_, ?_, ?_, ?_⟩ <;>
    · intro hc
      subst hc
      exact absurd h (by decide)

/-- Parsing the rendered tail of a non-empty array (the items after the
first, then the closing `\n`, indentation and `]`). -/
theorem parseArrayTail_jrenderItems
    (pv : List Char → Option (Json × List Char)) (lvl lvl0 : Nat) :
    ∀ (xs : JsonArr) (tfuel : Nat) (rest : List Char),
      xs.toList.length < tfuel →
      (∀ y ∈ xs.toList, ∀ r, headNotDigit r →
        pv (jrenderVal lvl y ++ r) = some (y, r)) →
      parseArrayTail pv tfuel
        (jrenderItems lvl xs ++ '\n' :: (indentChars lvl0 ++ (']' :: rest)))
        = some (xs.toList, rest)
  | .nil, tfuel, rest, hf, _ => by
    match tfuel, hf with
    | tf + 1, _ =>
      show parseArrayTail pv (tf + 1)
        ([] ++ '\n' :: (indentChars lvl0 ++ (']' :: rest))) = some ([], rest)
      rw [List.nil_append, parseArrayTail_succ, skipWs_newline_indent,
        skipWs_cons_not_ws (by decide : isWsChar ']' = false)]
      rw [if_neg (by simp), if_pos (by simp)]
      rfl
  | .cons x xs, tfuel, rest, hf, hpv => by
    match tfuel, hf with
    | tf + 1, hf =>
      show parseArrayTail pv (tf + 1)
        ((',' :: '\n' :: indentChars lvl ++ jrenderVal lvl x ++
          jrenderItems lvl xs) ++
          '\n' :: (indentChars lvl0 ++ (']' :: rest)))
        = some (x :: xs.toList, rest)
      simp only [List.cons_append, List.append_assoc]
      rw [parseArrayTail_succ,
        skipWs_cons_not_ws (by decide : isWsChar ',' = false)]
      rw [if_pos (by simp), List.tail_cons, skipWs_newline_indent,
        skipWs_jrender]
      rw [hpv x (by simp [JsonArr.toList]) _
        (headNotDigit_items lvl xs _ (headNotDigit_newline _))]
      rw [Option.some_bind]
      have hf2 : xs.toList.length < tf := by
        simp only [JsonArr.toList, List.length_cons] at hf
        omega
      rw [parseArrayTail_jrenderItems pv lvl lvl0 xs tf rest hf2
        (fun y hy => hpv y (by simp [JsonArr.toList, hy]))]
      rw [Option.some_bind]

/-- Parsing the rendered tail of a non-empty object (the members after the
first, then the closing `\n`, indentation and `}`). -/
theorem parseObjTail_jrenderMembers
    (pv : List Char → Option (Json × List Char)) (lvl lvl0 : Nat) :
    ∀ (kvs : JsonObj) (tfuel : Nat) (rest : List Char),
      kvs.toList.length < tfuel →
      (∀ kv ∈ kvs.toList, ∀ r, headNotDigit r →
        pv (jrenderVal lvl kv.2 ++ r) = some (kv.2, r)) →
      parseObjTail pv tfuel
        (jrenderMembers lvl kvs ++ '\n' :: (indentChars lvl0 ++ ('}' :: rest)))
        = some (kvs.toList, rest)
  | .nil, tfuel, rest, hf, _ => by
    match tfuel, hf with
    | tf + 1, _ =>
      show parseObjTail pv (tf + 1)
        ([] ++ '\n' :: (indentChars lvl0 ++ ('}' :: rest))) = some ([], rest)
      rw [List.nil_append, parseObjTail_succ, skipWs_newline_indent,
        skipWs_cons_not_ws (by decide : isWsChar '}' = false)]
      rw [if_neg (by simp), if_pos (by simp)]
      rfl
  | .cons k v kvs, tfuel, rest, hf, hpv => by
    match tfuel, hf with
    | tf + 1, hf =>
      show parseObjTail pv (tf + 1)
        ((',' :: '\n' :: indentChars lvl ++
          ('"' :: escapeList k.data ++ ['"']) ++
          ':' :: ' ' :: jrenderVal lvl v ++ jrenderMembers lvl kvs) ++
          '\n' :: (indentChars lvl0 ++ ('}' :: rest)))
        = some ((k, v) :: kvs.toList, rest)
      simp only [List.cons_append, List.append_assoc, List.singleton_append]
      rw [parseObjTail_succ,
        skipWs_cons_not_ws (by decide : isWsChar ',' = false)]
      rw [if_pos (by simp), List.tail_cons, skipWs_newline_indent,
        skipWs_cons_not_ws (by decide : isWsChar '"' = false)]
      rw [if_pos (by simp), List.tail_cons]
      rw [parseStringBody_renderString k]
      rw [Option.some_bind]
      dsimp only [List.nil_append]
      rw [skipWs_cons_not_ws (by decide : isWsChar ':' = false)]
      rw [if_pos (by simp), List.tail_cons,
        skipWs_cons_ws (by decide : isWsChar ' ' = true), skipWs_jrender]
      rw [hpv (k, v) (by simp [JsonObj.toList]) _
        (headNotDigit_members lvl kvs _ (headNotDigit_newline _))]
      rw [Option.some_bind]
      have hf2 : kvs.toList.length < tf := by
        simp only [JsonObj.toList, List.length_cons] at hf
        omega
      rw [parseObjTail_jrenderMembers pv lvl lvl0 kvs tf rest hf2
        (fun kv hkv => hpv kv (by simp [JsonObj.toList, hkv]))]
      rw [Option.some_bind]

/-- **Round trip, value level**: parsing a rendered JSON value (with any
following text that does not start with a digit) returns exactly that
value and the following text, for any sufficient parser fuel. -/
theorem parseValue_jrender :
    ∀ (pfuel : Nat) (j : Json) (lvl : Nat) (rest : List Char),
      jweight j ≤ pfuel → headNotDigit rest →
      parseValue pfuel (jrenderVal lvl j ++ rest) = some (j, rest) := by
  intro pfuel
  induction pfuel using Nat.strong_induction_on with
  | _ pfuel IH =>
    intro j lvl rest hw hrest
    have hpos := jweight_pos j
    match pfuel, hw, hpos with
    | 0, hw, hpos => omega
    | pf + 1, hw, _ =>
      cases j with
      | null => rfl
      | bool b => cases b with
        | true => rfl
        | false => rfl
      | num n =>
        show parseValue (pf + 1) (intRender n ++ rest) = _
        by_cases hneg : n < 0
        · rw [intRender, if_pos hneg]
          show parseValue (pf + 1) ('-' :: (natRender n.natAbs ++ rest)) = _
          rw [parseValue_cons, if_neg (by decide), if_neg (by decide),
            if_neg (by decide), if_neg (take_cons_ne 3 (by decide)),
            if_neg (take_cons_ne 3 (by decide)),
            if_neg (take_cons_ne 4 (by decide))]
          have hback : ('-' :: (natRender n.natAbs ++ rest))
              = intRender n ++ rest := by
            rw [intRender, if_pos hneg]
            rfl
          rw [hback, parseIntToken_intRender n rest hrest]
          rfl
        · rw [intRender, if_neg hneg]
          rcases hn : natRender n.natAbs with _ | ⟨c, t⟩
          · exact absurd hn (natRender_ne_nil _)
          · have hdig : isDigitChar c = true := by
              have := natRender_all_digits n.natAbs
              rw [hn] at this
              exact this c (by simp)
            obtain ⟨hq, hlb, hcb, hkn, hkt, hkf, hkm⟩ :=
              digit_head_dispatch hdig
            show parseValue (pf + 1) (c :: (t ++ rest)) = _
            rw [parseValue_cons, if_neg hq, if_neg hlb, if_neg hcb]
            rw [if_neg (take_cons_ne 3 hkn), if_neg (take_cons_ne 3 hkt),
              if_neg (take_cons_ne 4 hkf)]
            have hback : (c :: (t ++ rest)) = intRender n ++ rest := by
              rw [intRender, if_neg hneg, hn]
              rfl
            rw [hback, parseIntToken_intRender n rest hrest]
            rfl
      | str s =>
        show parseValue (pf + 1)
          (('"' :: escapeList s.data ++ ['"']) ++ rest) = _
        simp only [List.cons_append, List.append_assoc,
          List.singleton_append, List.nil_append]
        rw [parseValue_cons, if_pos rfl, parseStringBody_renderString s]
        rfl
      | arr xs =>
        cases xs with
        | nil =>
          show parseValue (pf + 1) ('[' :: (']' :: rest)) = _
          rw [parseValue_cons, if_neg (by decide), if_pos rfl,
            skipWs_cons_not_ws (by decide : isWsChar ']' = false)]
          rw [if_pos (by simp)]
          rfl
        | cons x xs =>
          show parseValue (pf + 1)
            (('[' :: '\n' :: indentChars (lvl + 1) ++ jrenderVal (lvl + 1) x
              ++ jrenderItems (lvl + 1) xs ++ '\n' :: indentChars lvl
              ++ [']']) ++ rest) = _
          simp only [List.cons_append, List.append_assoc,
            List.singleton_append, List.nil_append]
          rw [parseValue_cons, if_neg (by decide), if_pos rfl,
            skipWs_newline_indent, skipWs_jrender]
          obtain ⟨c1, t1, hct, hw1, hbr1, _⟩ := jrenderVal_cons (lvl + 1) x
          simp only [jweight, aweight] at hw
          have hwx : jweight x ≤ pf := by omega
          have hcond : (jrenderVal (lvl + 1) x ++
              (jrenderItems (lvl + 1) xs ++
                '\n' :: (indentChars lvl ++ ']' :: rest))).head?
              ≠ some ']' := by
            rw [hct]
            simp [hbr1]
          rw [if_neg hcond]
          rw [IH pf (by omega) x (lvl + 1) _ hwx
            (headNotDigit_items _ xs _ (headNotDigit_newline _))]
          rw [Option.some_bind]
          have harr := aweight_items xs
          rw [parseArrayTail_jrenderItems (parseValue pf) (lvl + 1) lvl xs pf
            rest (by omega)
            (fun y hy r hr => IH pf (by omega) y (lvl + 1) r
              (by have := jweight_lt_of_mem hy; omega) hr)]
          rw [Option.some_bind]
          show some (Json.arr (JsonArr.ofList (x :: xs.toList)), rest) = _
          rw [show JsonArr.ofList (x :: xs.toList)
            = JsonArr.cons x (JsonArr.ofList xs.toList) from rfl,
            JsonArr.ofList_toList]
      | obj kvs =>
        cases kvs with
        | nil =>
          show parseValue (pf + 1) ('{' :: ('}' :: rest)) = _
          rw [parseValue_cons, if_neg (by decide), if_neg (by decide),
            if_pos rfl,
            skipWs_cons_not_ws (by decide : isWsChar '}' = false)]
          rw [if_pos (by simp)]
          rfl
        | cons k v kvs =>
          show parseValue (pf + 1)
            (('{' :: '\n' :: indentChars (lvl + 1)
              ++ ('"' :: escapeList k.data ++ ['"'])
              ++ ':' :: ' ' :: jrenderVal (lvl + 1) v
              ++ jrenderMembers (lvl + 1) kvs ++ '\n' :: indentChars lvl
              ++ ['}']) ++ rest) = _
          simp only [List.cons_append, List.append_assoc,
            List.singleton_append, List.nil_append]
          rw [parseValue_cons, if_neg (by decide), if_neg (by decide),
            if_pos rfl, skipWs_newline_indent,
            skipWs_cons_not_ws (by decide : isWsChar '"' = false)]
          rw [if_neg (by simp), if_pos (by simp), List.tail_cons]
          rw [parseStringBody_renderString k]
          rw [Option.some_bind]
          dsimp only [List.nil_append]
          rw [skipWs_cons_not_ws (by decide : isWsChar ':' = false)]
          rw [if_pos (by simp), List.tail_cons,
            skipWs_cons_ws (by decide : isWsChar ' ' = true), skipWs_jrender]
          simp only [jweight, oweight] at hw
          have hwv : jweight v ≤ pf := by omega
          rw [IH pf (by omega) v (lvl + 1) _ hwv
            (headNotDigit_members _ kvs _ (headNotDigit_newline _))]
          rw [Option.some_bind]
          have hobj := oweight_items kvs
          rw [parseObjTail_jrenderMembers (parseValue pf) (lvl + 1) lvl kvs
            pf rest (by omega)
            (fun kv hkv r hr => IH pf (by omega) kv.2 (lvl + 1) r
              (by
                have := @jweight_lt_of_mem_obj kvs kv.1 kv.2
                  (by simpa using hkv)
                omega) hr)]
          rw [Option.some_bind]
          show some (Json.obj (JsonObj.ofList ((String.mk k.data, v)
            :: kvs.toList)), rest) = _
          rw [show String.mk k.data = k from rfl,
            show JsonObj.ofList ((k, v) :: kvs.toList)
            = JsonObj.cons k v (JsonObj.ofList kvs.toList) from rfl,
            JsonObj.obj_ofList_toList]

/-! ## Round-trip: document level -/

mutual

/-- The parser fuel derived from the document length is sufficient:
a value's weight is bounded by its rendered length (plus one). -/
theorem jweight_le_rl : ∀ (lvl : Nat) (j : Json),
    jweight j ≤ (jrenderVal lvl j).length + 1
  | _, .null => by simp [jweight, jrenderVal]
  | _, .bool true => by simp [jweight, jrenderVal]
  | _, .bool false => by simp [jweight, jrenderVal]
  | _, .num n => by simp [jweight]
  | _, .str s => by simp [jweight]
  | _, .arr .nil => by simp [jweight, aweight, jrenderVal]
  | lvl, .arr (.cons x xs) => by
    have h1 := jweight_le_rl (lvl + 1) x
    have h2 := aweight_le_rl (lvl + 1) xs
    simp only [jweight, aweight, jrenderVal, List.length_cons,
      List.length_append]
    omega
  | _, .obj .nil => by simp [jweight, oweight, jrenderVal]
  | lvl, .obj (.cons k v kvs) => by
    have h1 := jweight_le_rl (lvl + 1) v
    have h2 := oweight_le_rl (lvl + 1) kvs
    simp only [jweight, oweight, jrenderVal, List.length_cons,
      List.length_append]
    omega

theorem aweight_le_rl : ∀ (lvl : Nat) (xs : JsonArr),
    aweight xs ≤ (jrenderItems lvl xs).length + 1
  | _, .nil => by simp [aweight, jrenderItems]
  | lvl, .cons x xs => by
    have h1 := jweight_le_rl lvl x
    have h2 := aweight_le_rl lvl xs
    simp only [aweight, jrenderItems, List.length_cons, List.length_append]
    omega

theorem oweight_le_rl : ∀ (lvl : Nat) (kvs : JsonObj),
    oweight kvs ≤ (jrenderMembers lvl kvs).length + 1
  | _, .nil => by simp [oweight, jrenderMembers]
  | lvl, .cons k v kvs => by
    have h1 := jweight_le_rl lvl v
    have h2 := oweight_le_rl lvl kvs
    simp only [oweight, jrenderMembers, List.length_cons, List.length_append]
    omega

end

/-- **Round trip, document level**: `json.load` after `json.dump` returns
the same JSON value. -/
theorem jparse_jrender (j : Json) : jparse (String.mk (jrender j)) = some j := by
  obtain ⟨c, t, hct, hwc, _, _⟩ := jrenderVal_cons 0 j
  show (parseValue ((skipWs (jrender j)).length + 1) (skipWs (jrender j))).bind
    (fun jr => if (skipWs jr.2).isEmpty then some jr.1 else none) = some j
  have hskip : skipWs (jrender j) = jrender j := by
    show skipWs (jrenderVal 0 j) = jrenderVal 0 j
    rw [hct, skipWs_cons_not_ws hwc]
  rw [hskip]
  have hfuel := jweight_le_rl 0 j
  have hpv : parseValue ((jrender j).length + 1) (jrenderVal 0 j ++ [])
      = some (j, []) :=
    parseValue_jrender ((jrender j).length + 1) j 0 []
      (by exact hfuel) headNotDigit_nil
  rw [List.append_nil] at hpv
  rw [show jrenderVal 0 j = jrender j from rfl] at hpv
  rw [hpv, Option.some_bind]
  rfl

/-! ## Bookmark records (`notethisurl.py`, data model)

A bookmark as `add_bookmark` constructs it: a dict literal with the keys
`bookmarkURL`, `tags`, `date`, in that insertion order. -/

structure Bookmark where
  bookmarkURL : String
  tags : String
  date : String
  deriving Repr, DecidableEq

/-- The JSON object a bookmark occupies in the bookmarks file (the dict
built at `add_bookmark`, keys in insertion order). -/
def Bookmark.toJson (b : Bookmark) : Json :=
  .obj (.cons "bookmarkURL" (.str b.bookmarkURL)
    (.cons "tags" (.str b.tags)
      (.cons "date" (.str b.date) .nil)))

/-- A sequence of bookmarks as the JSON array stored in the file. -/
def encodeBookmarks (bs : List Bookmark) : Json :=
  .arr (JsonArr.ofList (bs.map Bookmark.toJson))

/-- Reading a bookmark back from its JSON object, by key lookup as the
Python code does (`bookmark["bookmarkURL"]` and so on). -/
def decodeBookmark (j : Json) : Option Bookmark :=
  match j with
  | .obj kvs =>
    match kvs.find "bookmarkURL", kvs.find "tags", kvs.find "date" with
    | some (.str u), some (.str t), some (.str d) => some ⟨u, t, d⟩
    | _, _, _ => none
  | _ => none

/-- Reading a stored bookmark sequence back from the loaded JSON value. -/
def decodeBookmarks (j : Json) : Option (List Bookmark) :=
  match j with
  | .arr xs => xs.toList.mapM decodeBookmark
  | _ => none

theorem decodeBookmark_toJson (b : Bookmark) :
    decodeBookmark (Bookmark.toJson b) = some b := rfl

theorem decodeBookmarks_encodeBookmarks (bs : List Bookmark) :
    decodeBookmarks (encodeBookmarks bs) = some bs := by
  show (JsonArr.ofList (bs.map Bookmark.toJson)).toList.mapM decodeBookmark
    = some bs
  induction bs with
  | nil => rfl
  | cons b bs ih =>
    show ((JsonArr.cons (Bookmark.toJson b)
      (JsonArr.ofList (bs.map Bookmark.toJson))).toList).mapM decodeBookmark
      = some (b :: bs)
    show (Bookmark.toJson b :: (JsonArr.ofList
      (bs.map Bookmark.toJson)).toList).mapM decodeBookmark = some (b :: bs)
    rw [List.mapM_cons, decodeBookmark_toJson, ih]
    rfl

/-! ## The bookmark store (`load_bookmarks` / `save_bookmarks`)

The file system is modelled as the bookmark file's content: `none` when
the file is absent, `some s` when it holds the text `s`. -/

/-- `load_bookmarks`: return the parsed JSON; on a missing file or a
`json.JSONDecodeError`, warn and return the empty list.  (The warnings are
prints; the returned value is what matters to callers.) -/
def load_bookmarks (file : Option String) : Json :=
  match file with
  | none => .arr .nil
  | some s =>
    match jparse s with
    | none => .arr .nil
    | some j => j

/-- `save_bookmarks`: the file content written by
`json.dump(bookmarks, file, indent=4)`. -/
def save_bookmarks (bookmarks : Json) : String :=
  String.mk (jrender bookmarks)

/-! ## The `datetime` model

`add_bookmark` stamps records with `datetime.now(timezone.utc).isoformat()`
and `list_urls` parses them back with `datetime.fromisoformat`, converts
with `astimezone` and formats with `strftime`.  A datetime is Gregorian
calendar fields plus an optional fixed UTC offset in minutes (`tzinfo`;
`none` = naive).  Timezones are modelled as fixed offsets (pytz zones with
DST rules are outside the model; the spec's test case uses a fixed
offset). -/

structure PyDateTime where
  year : Nat
  month : Nat
  day : Nat
  hour : Nat
  minute : Nat
  second : Nat
  microsecond : Nat
  offsetMinutes : Option Int
  deriving Repr, DecidableEq

/-- Zero-padded two-digit decimal rendering (`%02d`). -/
def pad2 (n : Nat) : List Char :=
  if n < 10 then '0' :: natRender n else natRender n

/-- Zero-padded four-digit rendering (`%04d`), as two two-digit groups. -/
def pad4 (n : Nat) : List Char := pad2 (n / 100) ++ pad2 (n % 100)

/-- Zero-padded six-digit rendering (`%06d`), as three two-digit groups. -/
def pad6 (n : Nat) : List Char :=
  pad2 (n / 10000) ++ pad2 (n / 100 % 100) ++ pad2 (n % 100)

/-- A fixed UTC offset as `±HH:MM` (how `isoformat` renders `tzinfo`). -/
def renderOffset (off : Int) : List Char :=
  if off < 0 then
    '-' :: (pad2 ((-off).toNat / 60) ++ ':' :: pad2 ((-off).toNat % 60))
  else '+' :: (pad2 (off.toNat / 60) ++ ':' :: pad2 (off.toNat % 60))

/-- `datetime.isoformat()`: `YYYY-MM-DDTHH:MM:SS[.ffffff][±HH:MM]`; the
microsecond part is omitted exactly when it is zero. -/
def PyDateTime.isoformat (d : PyDateTime) : String :=
  String.mk (pad4 d.year ++ '-' :: pad2 d.month ++ '-' :: pad2 d.day
    ++ 'T' :: pad2 d.hour ++ ':' :: pad2 d.minute ++ ':' :: pad2 d.second
    ++ (if d.microsecond = 0 then [] else '.' :: pad6 d.microsecond)
    ++ (match d.offsetMinutes with
        | none => []
        | some off => renderOffset off))

/-- Two decimal digits with their value (a fixed-width field). -/
def parse2 : List Char → Option (Nat × List Char)
  | c1 :: c2 :: rest =>
    if isDigitChar c1 ∧ isDigitChar c2 then
      some (10 * digitVal c1 + digitVal c2, rest)
    else none
  | _ => none

/-- Leap-year rule (proleptic Gregorian, as `datetime` uses). -/
def isLeap (y : Nat) : Bool :=
  y % 4 = 0 && (y % 100 ≠ 0 || y % 400 = 0)

/-- Number of days in a month (`calendar`/`datetime` rule). -/
def daysInMonth (y m : Nat) : Nat :=
  if m = 2 then (if isLeap y then 29 else 28)
  else if m = 4 ∨ m = 6 ∨ m = 9 ∨ m = 11 then 30
  else 31

/-- Days in the months before month `m` of year `y` (CPython
`_days_before_month`). -/
def daysBeforeMonth (y m : Nat) : Nat :=
  (if m > 1 then 31 else 0) +
  (if m > 2 then (if isLeap y then 29 else 28) else 0) +
  (if m > 3 then 31 else 0) + (if m > 4 then 30 else 0) +
  (if m > 5 then 31 else 0) + (if m > 6 then 30 else 0) +
  (if m > 7 then 31 else 0) + (if m > 8 then 31 else 0) +
  (if m > 9 then 30 else 0) + (if m > 10 then 31 else 0) +
  (if m > 11 then 30 else 0)

/-- Days before January 1 of year `y` (CPython `_days_before_year`). -/
def daysBeforeYear (y : Nat) : Nat :=
  let py := y - 1
  py * 365 + py / 4 - py / 100 + py / 400

/-- `datetime.toordinal()`: day number with 0001-01-01 = 1 (CPython
`_ymd2ord`). -/
def toOrdinal (y m d : Nat) : Nat :=
  daysBeforeYear y + daysBeforeMonth y m + d

/-- CPython `_ord2ymd`: the inverse of `toOrdinal` for ordinals ≥ 1. -/
def ordToYmd (ord : Nat) : Nat × Nat × Nat :=
  let n := ord - 1
  let n400 := n / 146097
  let n1r := n % 146097
  let n100 := n1r / 36524
  let n2r := n1r % 36524
  let n4 := n2r / 1461
  let n3r := n2r % 1461
  let n1 := n3r / 365
  let nr := n3r % 365
  let year := n400 * 400 + 1 + n100 * 100 + n4 * 4 + n1
  if n1 = 4 ∨ n100 = 4 then (year - 1, 12, 31)
  else
    let month0 := (nr + 50) / 32
    let month := if daysBeforeMonth year month0 > nr then month0 - 1
      else month0
    (year, month, nr - daysBeforeMonth year month + 1)

/-- The instant of an (aware) datetime as seconds from the epoch of the
ordinal count, UTC: wall-clock seconds minus the UTC offset. -/
def PyDateTime.toUtcSeconds (d : PyDateTime) : Int :=
  ((toOrdinal d.year d.month d.day : Int) * 86400
    + d.hour * 3600 + d.minute * 60 + d.second)
    - (d.offsetMinutes.getD 0) * 60

/-- Rebuild civil fields at a fixed target offset from a UTC instant
(CPython `datetime.fromtimestamp` essentials; microseconds carried
through unchanged, as `astimezone` does). -/
def fromUtcSeconds (t : Int) (targetOff : Int) (micro : Nat) : PyDateTime :=
  let loc := t + targetOff * 60
  let days := (loc.ediv 86400).toNat
  let secs := (loc.emod 86400).toNat
  let ymd := ordToYmd days
  ⟨ymd.1, ymd.2.1, ymd.2.2, secs / 3600, secs % 3600 / 60, secs % 60,
    micro, some targetOff⟩

/-- `dt.replace(tzinfo=pytz.utc)`: discard the parsed offset and stamp the
wall-clock fields as UTC (exactly what `list_urls` does). -/
def PyDateTime.replaceTzUtc (d : PyDateTime) : PyDateTime :=
  { d with offsetMinutes := some 0 }

/-- `dt.astimezone(tz)` for a fixed-offset timezone. -/
def PyDateTime.astimezone (d : PyDateTime) (targetOff : Int) : PyDateTime :=
  fromUtcSeconds d.toUtcSeconds targetOff d.microsecond

/-- `strftime("%Y-%m-%d %H:%M:%S")`. -/
def strftimeYmdHMS (d : PyDateTime) : String :=
  String.mk (pad4 d.year ++ '-' :: pad2 d.month ++ '-' :: pad2 d.day
    ++ ' ' :: pad2 d.hour ++ ':' :: pad2 d.minute ++ ':' :: pad2 d.second)

/-- Range validity of datetime fields, as the `datetime` constructor
enforces (`MINYEAR..MAXYEAR`, calendar day bound, time bounds, offset
strictly within a day). -/
def PyDateTime.Valid (d : PyDateTime) : Prop :=
  1 ≤ d.year ∧ d.year ≤ 9999 ∧ 1 ≤ d.month ∧ d.month ≤ 12 ∧
  1 ≤ d.day ∧ d.day ≤ daysInMonth d.year d.month ∧
  d.hour < 24 ∧ d.minute < 60 ∧ d.second < 60 ∧ d.microsecond < 1000000 ∧
  (∀ off ∈ d.offsetMinutes, -1440 < off ∧ off < 1440)

instance (d : PyDateTime) : Decidable d.Valid := by
  unfold PyDateTime.Valid
  infer_instance

/-- An offset `±HH:MM`, returned in minutes. -/
def parseOffset (l : List Char) : Option (Int × List Char) :=
  if l.head? = some '+' then
    (parse2 l.tail).bind fun hh =>
      if hh.2.head? = some ':' then
        (parse2 hh.2.tail).bind fun mm =>
          some ((hh.1 * 60 + mm.1 : Nat), mm.2)
      else none
  else if l.head? = some '-' then
    (parse2 l.tail).bind fun hh =>
      if hh.2.head? = some ':' then
        (parse2 hh.2.tail).bind fun mm =>
          some (-((hh.1 * 60 + mm.1 : Nat) : Int), mm.2)
      else none
  else none

/-- Construct a datetime if its fields pass the constructor's range
validation (as `datetime.__new__` does), else fail. -/
def mkValidDate (y mo dd h mi s micro : Nat) (off : Option Int) :
    Option PyDateTime :=
  let dt : PyDateTime := ⟨y, mo, dd, h, mi, s, micro, off⟩
  if dt.Valid then some dt else none

/-- `datetime.fromisoformat` on the formats this tool reads and writes:
`YYYY-MM-DD[<sep>HH:MM:SS[.ffffff][±HH:MM]]` (the separator may be any
single character, as CPython allows; the 3-digit millisecond form is not
modelled since `isoformat` never emits it), with the constructor's range
validation. -/
def fromisoformat (s : String) : Option PyDateTime :=
  (parse2 s.data).bind fun y1 =>
  (parse2 y1.2).bind fun y2 =>
  if y2.2.head? = some '-' then
    (parse2 y2.2.tail).bind fun mo =>
    if mo.2.head? = some '-' then
      (parse2 mo.2.tail).bind fun dd =>
      if dd.2.isEmpty then
        mkValidDate (100 * y1.1 + y2.1) mo.1 dd.1 0 0 0 0 none
      else
        (parse2 dd.2.tail).bind fun hh =>
        if hh.2.head? = some ':' then
          (parse2 hh.2.tail).bind fun mi =>
          if mi.2.head? = some ':' then
            (parse2 mi.2.tail).bind fun se =>
            if se.2.isEmpty then
              mkValidDate (100 * y1.1 + y2.1) mo.1 dd.1 hh.1 mi.1 se.1 0 none
            else if se.2.head? = some '.' then
              (parse2 se.2.tail).bind fun u1 =>
              (parse2 u1.2).bind fun u2 =>
              (parse2 u2.2).bind fun u3 =>
              if u3.2.isEmpty then
                mkValidDate (100 * y1.1 + y2.1) mo.1 dd.1 hh.1 mi.1 se.1
                  (u1.1 * 10000 + u2.1 * 100 + u3.1) none
              else
                (parseOffset u3.2).bind fun off =>
                if off.2.isEmpty then
                  mkValidDate (100 * y1.1 + y2.1) mo.1 dd.1 hh.1 mi.1 se.1
                    (u1.1 * 10000 + u2.1 * 100 + u3.1) (some off.1)
                else none
            else
              (parseOffset se.2).bind fun off =>
              if off.2.isEmpty then
                mkValidDate (100 * y1.1 + y2.1) mo.1 dd.1 hh.1 mi.1 se.1 0
                  (some off.1)
              else none
          else none
        else none
    else none
  else none

/-! ## Round trip of `isoformat` / `fromisoformat` -/

theorem parse2_pad2 {n : Nat} (h : n < 100) (rest : List Char) :
    parse2 (pad2 n ++ rest) = some (n, rest) := by
  by_cases h10 : n < 10
  · rw [pad2, if_pos h10, natRender_small h10]
    show (if isDigitChar '0' = true ∧ isDigitChar (digitChar n) = true then
      some (10 * digitVal '0' + digitVal (digitChar n), rest) else none)
      = some (n, rest)
    have hcond : isDigitChar '0' = true ∧ isDigitChar (digitChar n) = true :=
      ⟨by decide, digitChar_isDigit h10⟩
    rw [if_pos hcond, digitVal_digitChar h10]
    have hz : digitVal '0' = 0 := by decide
    rw [hz]
    have hv : 10 * 0 + n = n := by omega
    rw [hv]
  · rw [pad2, if_neg h10, natRender_unfold (by omega)]
    have h1 : n / 10 < 10 := by omega
    rw [natRender_small h1]
    show (if isDigitChar (digitChar (n / 10)) = true ∧
        isDigitChar (digitChar (n % 10)) = true then
      some (10 * digitVal (digitChar (n / 10))
        + digitVal (digitChar (n % 10)), rest) else none) = some (n, rest)
    have hcond : isDigitChar (digitChar (n / 10)) = true ∧
        isDigitChar (digitChar (n % 10)) = true :=
      ⟨digitChar_isDigit h1, digitChar_isDigit (by omega)⟩
    rw [if_pos hcond, digitVal_digitChar h1, digitVal_digitChar (by omega)]
    have hv : 10 * (n / 10) + n % 10 = n := by omega
    rw [hv]

theorem parseOffset_renderOffset {off : Int} (h1 : -1440 < off)
    (h2 : off < 1440) (rest : List Char) :
    parseOffset (renderOffset off ++ rest) = some (off, rest) := by
  by_cases hneg : off < 0
  · rw [renderOffset, if_pos hneg]
    simp only [List.cons_append, List.append_assoc]
    unfold parseOffset
    rw [if_neg (by simp), if_pos (by simp)]
    dsimp only [List.tail_cons]
    rw [@parse2_pad2 ((-off).toNat / 60) (by omega)
      (':' :: (pad2 ((-off).toNat % 60) ++ rest))]
    rw [Option.some_bind]
    rw [if_pos (by simp), List.tail_cons]
    rw [@parse2_pad2 ((-off).toNat % 60) (by omega) rest]
    rw [Option.some_bind]
    have hv : -(((-off).toNat / 60 * 60 + (-off).toNat % 60 : Nat) : Int)
        = off := by
      have := Nat.div_add_mod (-off).toNat 60
      omega
    rw [hv]
  · rw [renderOffset, if_neg hneg]
    simp only [List.cons_append, List.append_assoc]
    unfold parseOffset
    rw [if_pos (by simp)]
    dsimp only [List.tail_cons]
    rw [@parse2_pad2 (off.toNat / 60) (by omega)
      (':' :: (pad2 (off.toNat % 60) ++ rest))]
    rw [Option.some_bind]
    rw [if_pos (by simp), List.tail_cons]
    rw [@parse2_pad2 (off.toNat % 60) (by omega) rest]
    rw [Option.some_bind]
    have hv : ((off.toNat / 60 * 60 + off.toNat % 60 : Nat) : Int) = off := by
      have := Nat.div_add_mod off.toNat 60
      omega
    rw [hv]

theorem daysInMonth_le (y m : Nat) : daysInMonth y m ≤ 31 := by
  unfold daysInMonth
  split_ifs <;> omega

set_option maxHeartbeats 2000000 in
/-- `fromisoformat` inverts `isoformat` on valid UTC datetimes: the
stamped dates are well-formed ISO-8601 and parse back to the same
instant. -/
theorem fromisoformat_isoformat (d : PyDateTime) (hv : d.Valid)
    (hoff : d.offsetMinutes = some 0) :
    fromisoformat d.isoformat = some d := by
  rcases d with ⟨y, mo, dd, hh, mi, se, micro, off⟩
  simp only at hoff
  subst hoff
  obtain ⟨hy1x, hy2x, hm1x, hm2x, hd1x, hd2x, hhhx, hmix, hsex, hmicx, _⟩ := hv
  have hy1 : 1 ≤ y := hy1x
  have hy2 : y ≤ 9999 := hy2x
  have hm1 : 1 ≤ mo := hm1x
  have hm2 : mo ≤ 12 := hm2x
  have hd1 : 1 ≤ dd := hd1x
  have hd2 : dd ≤ daysInMonth y mo := hd2x
  have hhh : hh < 24 := hhhx
  have hmi : mi < 60 := hmix
  have hse : se < 60 := hsex
  have hmic : micro < 1000000 := hmicx
  have hd31 := daysInMonth_le y mo
  have hval : PyDateTime.Valid ⟨y, mo, dd, hh, mi, se, micro, some 0⟩ := by
    refine ⟨hy1, hy2, hm1, hm2, hd1, hd2, hhh, hmi, hse, hmic, ?_⟩
    intro o ho
    simp only [Option.mem_def, Option.some.injEq] at ho
    omega
  have hyv : 100 * (y / 100) + y % 100 = y := by omega
  by_cases hmc : micro = 0
  · subst hmc
    show fromisoformat (String.mk ((pad2 (y / 100) ++ pad2 (y % 100))
      ++ '-' :: pad2 mo ++ '-' :: pad2 dd ++ 'T' :: pad2 hh
      ++ ':' :: pad2 mi ++ ':' :: pad2 se ++ []
      ++ ('+' :: '0' :: '0' :: ':' :: '0' :: '0' :: []))) = _
    unfold fromisoformat
    show (parse2 ((pad2 (y / 100) ++ pad2 (y % 100))
      ++ '-' :: pad2 mo ++ '-' :: pad2 dd ++ 'T' :: pad2 hh
      ++ ':' :: pad2 mi ++ ':' :: pad2 se ++ []
      ++ ('+' :: '0' :: '0' :: ':' :: '0' :: '0' :: []))).bind _ = _
    simp only [List.cons_append, List.append_assoc, List.nil_append,
      List.append_nil]
    rw [@parse2_pad2 (y / 100) (by omega) _, Option.some_bind]
    rw [@parse2_pad2 (y % 100) (by omega) _, Option.some_bind]
    rw [if_pos (by simp)]
    dsimp only [List.tail_cons]
    rw [@parse2_pad2 mo (by omega) _, Option.some_bind, if_pos (by simp)]
    dsimp only [List.tail_cons]
    rw [@parse2_pad2 dd (by omega) _, Option.some_bind, if_neg (by simp)]
    dsimp only [List.tail_cons]
    rw [@parse2_pad2 hh (by omega) _, Option.some_bind, if_pos (by simp)]
    dsimp only [List.tail_cons]
    rw [@parse2_pad2 mi (by omega) _, Option.some_bind, if_pos (by simp)]
    dsimp only [List.tail_cons]
    rw [@parse2_pad2 se (by omega) _, Option.some_bind]
    rw [if_neg (by simp), if_neg (by simp)]
    rw [show parseOffset
      ('+' :: '0' :: '0' :: ':' :: '0' :: '0' :: [])
      = some ((0 : Int), []) from rfl]
    rw [Option.some_bind]
    rw [if_pos (by simp)]
    rw [mkValidDate, hyv]
    rw [if_pos hval]
  · have hiso : (PyDateTime.mk y mo dd hh mi se micro (some 0)).isoformat
        = String.mk ((pad2 (y / 100) ++ pad2 (y % 100))
          ++ '-' :: pad2 mo ++ '-' :: pad2 dd ++ 'T' :: pad2 hh
          ++ ':' :: pad2 mi ++ ':' :: pad2 se
          ++ ('.' :: (pad2 (micro / 10000) ++ pad2 (micro / 100 % 100)
            ++ pad2 (micro % 100)))
          ++ ('+' :: '0' :: '0' :: ':' :: '0' :: '0' :: [])) := by
      unfold PyDateTime.isoformat
      rw [if_neg hmc]
      rfl
    rw [hiso]
    · unfold fromisoformat
      show (parse2 ((pad2 (y / 100) ++ pad2 (y % 100))
        ++ '-' :: pad2 mo ++ '-' :: pad2 dd ++ 'T' :: pad2 hh
        ++ ':' :: pad2 mi ++ ':' :: pad2 se
        ++ ('.' :: (pad2 (micro / 10000) ++ pad2 (micro / 100 % 100)
          ++ pad2 (micro % 100)))
        ++ ('+' :: '0' :: '0' :: ':' :: '0' :: '0' :: []))).bind _ = _
      simp only [List.cons_append, List.append_assoc, List.nil_append,
        List.append_nil]
      rw [@parse2_pad2 (y / 100) (by omega) _, Option.some_bind]
      rw [@parse2_pad2 (y % 100) (by omega) _, Option.some_bind]
      rw [if_pos (by simp)]
      dsimp only [List.tail_cons]
      rw [@parse2_pad2 mo (by omega) _, Option.some_bind, if_pos (by simp)]
      dsimp only [List.tail_cons]
      rw [@parse2_pad2 dd (by omega) _, Option.some_bind, if_neg (by simp)]
      dsimp only [List.tail_cons]
      rw [@parse2_pad2 hh (by omega) _, Option.some_bind, if_pos (by simp)]
      dsimp only [List.tail_cons]
      rw [@parse2_pad2 mi (by omega) _, Option.some_bind, if_pos (by simp)]
      dsimp only [List.tail_cons]
      rw [@parse2_pad2 se (by omega) _, Option.some_bind]
      rw [if_neg (by simp), if_pos (by simp)]
      dsimp only [List.tail_cons]
      rw [@parse2_pad2 (micro / 10000) (by omega) _, Option.some_bind]
      rw [@parse2_pad2 (micro / 100 % 100) (by omega) _, Option.some_bind]
      rw [@parse2_pad2 (micro % 100) (by omega) _, Option.some_bind]
      rw [if_neg (by simp)]
      rw [show parseOffset
        ('+' :: '0' :: '0' :: ':' :: '0' :: '0' :: [])
        = some ((0 : Int), []) from rfl]
      rw [Option.some_bind]
      rw [if_pos (by simp)]
      rw [mkValidDate, hyv]
      have hmv : micro / 10000 * 10000 + micro / 100 % 100 * 100
          + micro % 100 = micro := by omega
      rw [hmv]
      rw [if_pos hval]

/-! ## The tag index (`list_tags`)

`Counter(tag for bookmark in bookmarks for tag in
bookmark["tags"].split(",") if tag).most_common()`: dict-based counting in
first-encountered order, then a stable sort descending by count
(`sorted(..., reverse=True)` leaves equal-count entries in insertion
order, the documented `most_common` behaviour since Python 3.7). -/

/-- `str.split(",")`: cut at every comma; consecutive, leading or
trailing commas produce empty fields. -/
def pySplitComma : List Char → List Char → List String
  | [], acc => [String.mk acc.reverse]
  | c :: t, acc =>
    if c = ',' then String.mk acc.reverse :: pySplitComma t []
    else pySplitComma t (c :: acc)

/-- The tag occurrences fed to the `Counter`: every bookmark's `tags`
split on `,`, empty tokens discarded (`if tag`). -/
def tagOccurrences (bs : List Bookmark) : List String :=
  bs.flatMap fun b => (pySplitComma b.tags.data []).filter fun t => t ≠ ""

/-- One `Counter` insertion: increment in place, or append a new key with
count 1 (dicts preserve insertion order). -/
def counterAdd (acc : List (String × Nat)) (k : String) :
    List (String × Nat) :=
  match acc with
  | [] => [(k, 1)]
  | (k', n) :: t =>
    if k' = k then (k', n + 1) :: t else (k', n) :: counterAdd t k

/-- `Counter(iterable)`: counts in first-encountered key order. -/
def counter (l : List String) : List (String × Nat) := l.foldl counterAdd []

/-- `most_common()`: stable sort, larger counts first. -/
def most_common (l : List (String × Nat)) : List (String × Nat) :=
  List.insertionSort (fun a b => b.2 ≤ a.2) l

/-- `list_tags`, as the `(tag, count)` pairs it prints, in print order. -/
def list_tags (bookmarks : List Bookmark) : List (String × Nat) :=
  most_common (counter (tagOccurrences bookmarks))

/-! ### Correctness of the counter -/

/-- The keys of a counter, in insertion order. -/
def keysOf (acc : List (String × Nat)) : List String := acc.map Prod.fst

/-- Total count stored for `t` (with distinct keys: the stored count,
or 0 when absent). -/
def cnt (acc : List (String × Nat)) (t : String) : Nat :=
  ((acc.filter fun p => p.1 = t).map Prod.snd).sum

theorem cnt_nil (t : String) : cnt [] t = 0 := rfl

theorem cnt_cons (k : String) (m : Nat) (tl : List (String × Nat))
    (t : String) :
    cnt ((k, m) :: tl) t = (if k = t then m else 0) + cnt tl t := by
  by_cases h : k = t
  · simp [cnt, List.filter_cons, h]
  · simp [cnt, List.filter_cons, h]

theorem cnt_of_not_mem {acc : List (String × Nat)} {t : String}
    (h : t ∉ keysOf acc) : cnt acc t = 0 := by
  induction acc with
  | nil => rfl
  | cons p tl ih =>
    rcases p with ⟨k, m⟩
    have hk : k ≠ t := by
      intro hh
      exact h (by simp [keysOf, hh])
    rw [cnt_cons, if_neg hk, ih (fun hh => h (by simp [keysOf] at hh ⊢; right; exact hh))]

theorem mem_keys_counterAdd (acc : List (String × Nat)) (k x : String) :
    x ∈ keysOf (counterAdd acc k) ↔ x ∈ keysOf acc ∨ x = k := by
  induction acc with
  | nil => simp [counterAdd, keysOf]
  | cons p tl ih =>
    rcases p with ⟨k', m⟩
    by_cases h : k' = k
    · subst h
      rw [show counterAdd ((k', m) :: tl) k' = (k', m + 1) :: tl from by
        simp [counterAdd]]
      show x ∈ k' :: keysOf tl ↔ x ∈ k' :: keysOf tl ∨ x = k'
      constructor
      · exact Or.inl
      · intro hh
        rcases hh with h1 | h1
        · exact h1
        · subst h1
          simp
    · rw [show counterAdd ((k', m) :: tl) k = (k', m) :: counterAdd tl k
        from by simp [counterAdd, h]]
      show x ∈ k' :: keysOf (counterAdd tl k) ↔ x ∈ k' :: keysOf tl ∨ x = k
      simp only [List.mem_cons]
      rw [ih]
      tauto

theorem nodup_counterAdd {acc : List (String × Nat)} (k : String)
    (h : (keysOf acc).Nodup) : (keysOf (counterAdd acc k)).Nodup := by
  induction acc with
  | nil => simp [counterAdd, keysOf]
  | cons p tl ih =>
    rcases p with ⟨k', m⟩
    simp only [keysOf, List.map_cons, List.nodup_cons] at h
    by_cases hk : k' = k
    · subst hk
      simpa [counterAdd, keysOf, List.nodup_cons] using h
    · simp only [counterAdd, if_neg hk, keysOf, List.map_cons,
        List.nodup_cons]
      refine ⟨?_, ih h.2⟩
      intro hmem
      rcases (mem_keys_counterAdd tl k k').mp hmem with h1 | h1
      · exact h.1 h1
      · exact hk h1

theorem pos_counterAdd {acc : List (String × Nat)} (k : String)
    (h : ∀ p ∈ acc, 1 ≤ p.2) : ∀ p ∈ counterAdd acc k, 1 ≤ p.2 := by
  induction acc with
  | nil =>
    intro p hp
    simp only [counterAdd, List.mem_singleton] at hp
    subst hp
    omega
  | cons q tl ih =>
    rcases q with ⟨k', m⟩
    by_cases hk : k' = k
    · subst hk
      simp only [counterAdd, if_pos rfl]
      intro p hp
      rcases List.mem_cons.mp hp with h1 | h1
      · subst h1
        omega
      · exact h p (List.mem_cons.mpr (Or.inr h1))
    · simp only [counterAdd, if_neg hk]
      intro p hp
      rcases List.mem_cons.mp hp with h1 | h1
      · subst h1
        exact h (k', m) (by simp)
      · exact ih (fun q hq => h q (List.mem_cons.mpr (Or.inr hq))) p h1

theorem cnt_counterAdd (acc : List (String × Nat)) (k t : String) :
    cnt (counterAdd acc k) t = cnt acc t + (if k = t then 1 else 0) := by
  induction acc with
  | nil =>
    by_cases h : k = t <;> simp [counterAdd, cnt_cons, cnt_nil, h]
  | cons p tl ih =>
    rcases p with ⟨k', m⟩
    by_cases hk : k' = k
    · subst hk
      rw [show counterAdd ((k', m) :: tl) k' = (k', m + 1) :: tl from by
        simp [counterAdd]]
      rw [cnt_cons, cnt_cons]
      by_cases ht : k' = t
      · simp [ht]
        omega
      · simp [ht]
    · rw [show counterAdd ((k', m) :: tl) k = (k', m) :: counterAdd tl k
        from by simp [counterAdd, hk]]
      rw [cnt_cons, cnt_cons, ih]
      omega

theorem cnt_foldl (l : List String) :
    ∀ (acc : List (String × Nat)) (t : String),
      cnt (l.foldl counterAdd acc) t = cnt acc t + l.count t := by
  induction l with
  | nil => simp
  | cons k tl ih =>
    intro acc t
    show cnt (tl.foldl counterAdd (counterAdd acc k)) t = _
    rw [ih (counterAdd acc k) t, cnt_counterAdd]
    have hc : (k :: tl).count t = tl.count t + (if k = t then 1 else 0) := by
      rcases eq_or_ne t k with h | h
      · subst h
        simp [List.count_cons]
      · simp [List.count_cons, h, Ne.symm h]
    rw [hc]
    omega

theorem nodup_counter (l : List String) : (keysOf (counter l)).Nodup := by
  suffices h : ∀ acc, (keysOf acc).Nodup →
      (keysOf (l.foldl counterAdd acc)).Nodup from
    h [] (by simp [keysOf])
  induction l with
  | nil => intro acc h; exact h
  | cons k tl ih =>
    intro acc h
    exact ih (counterAdd acc k) (nodup_counterAdd k h)

theorem pos_counter (l : List String) : ∀ p ∈ counter l, 1 ≤ p.2 := by
  suffices h : ∀ acc, (∀ p ∈ acc, 1 ≤ p.2) →
      ∀ p ∈ l.foldl counterAdd acc, 1 ≤ p.2 from
    h [] (by simp)
  induction l with
  | nil => intro acc h; exact h
  | cons k tl ih =>
    intro acc h
    exact ih (counterAdd acc k) (pos_counterAdd k h)

theorem cnt_counter (l : List String) (t : String) :
    cnt (counter l) t = l.count t := by
  have := cnt_foldl l [] t
  simpa [cnt_nil] using this

theorem mem_assoc_iff_cnt {acc : List (String × Nat)}
    (hnd : (keysOf acc).Nodup) (hpos : ∀ p ∈ acc, 1 ≤ p.2)
    (t : String) (n : Nat) :
    (t, n) ∈ acc ↔ (cnt acc t = n ∧ 1 ≤ n) := by
  induction acc with
  | nil =>
    constructor
    · intro h
      exact absurd h (List.not_mem_nil _)
    · intro h
      exfalso
      have h0 : (0 : Nat) = n := h.1
      have h1 := h.2
      omega
  | cons p tl ih =>
    rcases p with ⟨k, m⟩
    simp only [keysOf, List.map_cons, List.nodup_cons] at hnd
    have ih2 := ih hnd.2 fun q hq => hpos q (List.mem_cons.mpr (Or.inr hq))
    rw [cnt_cons]
    constructor
    · intro hmem
      rcases List.mem_cons.mp hmem with h1 | h1
      · injection h1 with h2 h3
        subst h2; subst h3
        have hz : cnt tl t = 0 := cnt_of_not_mem hnd.1
        have hm : 1 ≤ n := hpos (t, n) (by simp)
        rw [if_pos rfl, hz]
        omega
      · have := (ih2.mp h1).1
        have hpos2 := (ih2.mp h1).2
        have hk : k ≠ t := by
          intro hh
          subst hh
          exact hnd.1 (by
            have : (k, n) ∈ tl := h1
            exact List.mem_map.mpr ⟨(k, n), this, rfl⟩)
        rw [if_neg hk]
        omega
    · intro ⟨hc, hn⟩
      by_cases hk : k = t
      · subst hk
        rw [if_pos rfl] at hc
        have hz : cnt tl k = 0 := cnt_of_not_mem hnd.1
        have : m = n := by omega
        subst this
        exact List.mem_cons.mpr (Or.inl rfl)
      · rw [if_neg hk] at hc
        exact List.mem_cons.mpr (Or.inr (ih2.mpr ⟨by omega, hn⟩))

/-- Membership in the counter is exactly positive occurrence count. -/
theorem counter_mem (l : List String) (t : String) (n : Nat) :
    (t, n) ∈ counter l ↔ (n = l.count t ∧ 1 ≤ n) := by
  rw [mem_assoc_iff_cnt (nodup_counter l) (pos_counter l), cnt_counter]
  constructor
  · intro ⟨h1, h2⟩
    exact ⟨h1.symm, h2⟩
  · intro ⟨h1, h2⟩
    exact ⟨h1.symm, h2⟩

/-! ## The presenter (`list_urls`)

`pytz` is modelled as an abstract database resolving timezone names to
fixed UTC offsets in minutes (`none` = `UnknownTimeZoneError`); `pytz.utc`
is offset 0.  The result is the warning lines printed and the table rows
handed to `tabulate` (each row `[DateTime, URL, Tags]`); grid drawing is
presentation only.  An unparsable stored date makes `fromisoformat` raise,
which the Python code does not catch: that is the `none` outcome. -/

structure RenderResult where
  warnings : List String
  table : List (List String)
  deriving Repr, DecidableEq

def list_urls (tzdb : String → Option Int) (bookmarks : List Bookmark)
    (tz_name : String) : Option RenderResult :=
  let tz := match tzdb tz_name with
    | some off => (off, ([] : List String))
    | none =>
      (0, ["Error: Invalid timezone '" ++ tz_name ++ "'. Falling back to UTC."])
  (bookmarks.mapM fun b =>
    (fromisoformat b.date).map fun utc_time =>
      let local_time := utc_time.replaceTzUtc.astimezone tz.1
      [strftimeYmdHMS local_time, b.bookmarkURL, b.tags]).map
    fun rows => ⟨tz.2, rows⟩

/-! ## Remote sync (`push_to_github`)

The PyGithub surface is an abstract record of what each remote call would
return on this run.  `push_to_github` resolves the repository (an API call
that can itself raise — it is outside the `try`), reads the local file
content, then tries fetch-and-update, falling back on `create` when the
stringified exception contains `"404"`.  Exceptions are their `str(e)`
text.  `raised e` means an exception propagates out of `push_to_github`
(crashing `main`, which has no handler). -/

structure RemoteFile where
  path : String
  sha : String
  deriving Repr, DecidableEq

inductive GhCall where
  | getContents (path : String)
  | updateFile (path msg content sha : String)
  | createFile (path msg content : String)
  deriving Repr, DecidableEq

/-- The outcomes the GitHub service would give to this run's calls. -/
structure GhApi where
  get_repo : Except String Unit
  get_contents : String → Except String RemoteFile
  update_file : String → String → String → String → Except String Unit
  create_file : String → String → String → Except String Unit

inductive PushOutcome where
  | ok : PushOutcome
  | raised (e : String) : PushOutcome
  deriving Repr, DecidableEq

structure PushResult where
  calls : List GhCall
  messages : List String
  outcome : PushOutcome
  deriving Repr, DecidableEq

/-- The `"404" in str(e)` test. -/
def is404 (e : String) : Bool := containsSub "404".data e.data

/-- The `except Exception as e` handler: on a 404-looking exception,
create the file (an exception from `create_file` itself is uncaught);
otherwise print the error and return normally. -/
def push_handle_exc (api : GhApi) (filename content : String)
    (prior : List GhCall) (e : String) : PushResult :=
  if is404 e then
    match api.create_file filename "Add bookmarks" content with
    | Except.ok _ =>
      { calls := prior ++ [.createFile filename "Add bookmarks" content],
        messages :=
          ["File " ++ filename ++ " not found, creating a new file.",
           "Created file " ++ filename ++ " in the GitHub repo."],
        outcome := .ok }
    | Except.error ce =>
      { calls := prior ++ [.createFile filename "Add bookmarks" content],
        messages :=
          ["File " ++ filename ++ " not found, creating a new file."],
        outcome := .raised ce }
  else
    { calls := prior,
      messages := ["GitHub error occurred: " ++ e],
      outcome := .ok }

/-- The update attempt once the remote file was fetched successfully
(the second statement of the `try` block). -/
def push_after_fetch (api : GhApi) (filename content : String)
    (f : RemoteFile) : PushResult :=
  match api.update_file f.path "Update bookmarks" content f.sha with
  | Except.ok _ =>
    { calls := [.getContents filename,
        .updateFile f.path "Update bookmarks" content f.sha],
      messages :=
        ["Updated file " ++ filename ++ " in the GitHub repo."],
      outcome := .ok }
  | Except.error e =>
    push_handle_exc api filename content
      [.getContents filename,
       .updateFile f.path "Update bookmarks" content f.sha] e

/-- `push_to_github(config, file_path)` with `content` the local file's
text and `filename` = `config["FILENAME"]`. -/
def push_to_github (api : GhApi) (filename content : String) : PushResult :=
  match api.get_repo with
  | Except.error e => { calls := [], messages := [], outcome := .raised e }
  | Except.ok _ =>
    match api.get_contents filename with
    | Except.ok f => push_after_fetch api filename content f
    | Except.error e =>
      push_handle_exc api filename content [.getContents filename] e

/-! ## Config store (`initialize_config`)

The config file is `none` (absent) or its text.  Interactive prompts are
supplied as a record of canned answers; `input(...) or DEFAULT` takes the
default exactly when the answer is the empty string.  A config file whose
JSON is invalid or not an object makes `json.load` / the `in` test
misbehave before any branch of interest: modelled as `crashed`. -/

def DEFAULT_FILENAME : String := "bookmarks.json"
def DEFAULT_TIMEZONE : String := "UTC"

structure PromptAnswers where
  github_token : String
  github_repo : String
  timezone_choice : String
  filename_choice : String
  overwrite : String
  deriving Repr, DecidableEq

inductive InitOutcome where
  | returned (changed : Bool) : InitOutcome
  | crashed : InitOutcome
  deriving Repr, DecidableEq

structure InitResult where
  outcome : InitOutcome
  written : Option Json
  prompted : Bool
  deriving Repr, DecidableEq

/-- `input(...) or default`. -/
def orDefault (answer default : String) : String :=
  if answer = "" then default else answer

/-- Dict update for one key: overwrite in place or append (Python
`dict.update` keeps the original insertion position of existing keys). -/
def JsonObj.setKey (kvs : JsonObj) (k : String) (v : Json) : JsonObj :=
  match kvs with
  | .nil => .cons k v .nil
  | .cons k' v' tl =>
    if k' = k then .cons k' v tl else .cons k' v' (tl.setKey k v)

/-- The fresh config written by the first-run setup path. -/
def freshConfig (ans : PromptAnswers) : Json :=
  .obj (.cons "GITHUB_TOKEN" (.str ans.github_token)
    (.cons "GITHUB_REPO" (.str ans.github_repo)
      (.cons "FILENAME" (.str (orDefault ans.filename_choice DEFAULT_FILENAME))
        (.cons "TIMEZONE"
          (.str (orDefault ans.timezone_choice DEFAULT_TIMEZONE)) .nil))))

/-- `config.get(k, default)` restricted to string values, as the repair
path displays and reuses them. -/
def configGetStr (kvs : JsonObj) (k : String) (default : String) : String :=
  match kvs.find k with
  | some (.str s) => s
  | _ => default

/-- The merged config written by the repair path
(`config.update({...}); json.dump(config, ...)`). -/
def repairedConfig (kvs : JsonObj) (ans : PromptAnswers) : Json :=
  .obj ((((kvs.setKey "GITHUB_TOKEN" (.str ans.github_token)).setKey
    "GITHUB_REPO" (.str ans.github_repo)).setKey
    "TIMEZONE" (.str (orDefault ans.timezone_choice
      (configGetStr kvs "TIMEZONE" DEFAULT_TIMEZONE)))).setKey
    "FILENAME" (.str (orDefault ans.filename_choice
      (configGetStr kvs "FILENAME" DEFAULT_FILENAME))))

/-- The keys `initialize_config` actually requires of an existing config
(`required_keys` in the source). -/
def required_keys : List String := ["GITHUB_TOKEN", "GITHUB_REPO", "TIMEZONE"]

/-- `initialize_config(force_setup)`: set up afresh when the file is
missing or `force_setup`; otherwise accept the config if every key of
`required_keys` is present, else offer the interactive repair path. -/
def initialize_config (configFile : Option String) (force_setup : Bool)
    (ans : PromptAnswers) : InitResult :=
  match configFile with
  | none =>
    { outcome := .returned true, written := some (freshConfig ans),
      prompted := true }
  | some cfg =>
    if force_setup then
      { outcome := .returned true, written := some (freshConfig ans),
        prompted := true }
    else
      match jparse cfg with
      | some (.obj kvs) =>
        if required_keys.all fun k => kvs.hasKey k then
          { outcome := .returned false, written := none, prompted := false }
        else if (ans.overwrite.trim.toLower) ≠ "yes" then
          { outcome := .returned false, written := none, prompted := true }
        else
          { outcome := .returned true,
            written := some (repairedConfig kvs ans), prompted := true }
      | _ => { outcome := .crashed, written := none, prompted := false }

/-! ## The `add` command path of `main`

After config handling, `main` loads the bookmark collection, appends the
new record, saves, and pushes once.  If the loaded JSON is not a list,
`bookmarks.append` raises (`none` outcome).  The clock is a parameter:
`datetime.now(timezone.utc)` is some valid UTC instant. -/

/-- `add_bookmark(url, tags)` at instant `now`. -/
def add_bookmark (bookmark_url tags : String) (now : PyDateTime) : Bookmark :=
  ⟨bookmark_url, tags, now.isoformat⟩

/-- The externally visible steps of the `add` branch, in program order. -/
inductive MainEffect where
  | savedFile (content : String) : MainEffect
  | pushAttempt (content : String) : MainEffect
  deriving Repr, DecidableEq

def MainEffect.isPush : MainEffect → Bool
  | .savedFile _ => false
  | .pushAttempt _ => true

structure AddRunResult where
  savedContent : String
  effects : List MainEffect
  push : PushResult
  deriving Repr, DecidableEq

/-- The `add` branch of `main`: load, append, save, push.  Returns the
bookmark file's new content, the effect trace and the push result; `none`
when the loaded JSON is not a list (Python would raise at
`bookmarks.append`). -/
def run_add (api : GhApi) (fileContent : Option String) (filename : String)
    (url tags : String) (now : PyDateTime) : Option AddRunResult :=
  match load_bookmarks fileContent with
  | .arr l =>
    let bookmark := add_bookmark url tags now
    let newList := Json.arr (JsonArr.ofList (l.toList ++ [bookmark.toJson]))
    let content := save_bookmarks newList
    some ⟨content, [.savedFile content, .pushAttempt content],
      push_to_github api filename content⟩
  | _ => none

/-! ## Helper lemmas for the claim theorems -/

theorem JsonArr.toList_ofList : ∀ (l : List Json),
    (JsonArr.ofList l).toList = l
  | [] => rfl
  | x :: xs => by
    show x :: (JsonArr.ofList xs).toList = x :: xs
    rw [JsonArr.toList_ofList xs]

/-- Loading a just-saved collection returns it unchanged. -/
theorem load_bookmarks_save (j : Json) :
    load_bookmarks (some (save_bookmarks j)) = j := by
  show (match jparse (String.mk (jrender j)) with
    | none => Json.arr .nil
    | some j => j) = j
  rw [jparse_jrender]

/-- `mapM` over bookmarks whose dates all parse produces exactly the
mapped rows. -/
theorem mapM_rows (off : Int) (f : Bookmark → PyDateTime) :
    ∀ (bs : List Bookmark),
      (∀ b ∈ bs, fromisoformat b.date = some (f b)) →
      (bs.mapM fun b =>
        (fromisoformat b.date).map fun utc_time =>
          [strftimeYmdHMS (utc_time.replaceTzUtc.astimezone off),
            b.bookmarkURL, b.tags])
        = some (bs.map fun b =>
          [strftimeYmdHMS ((f b).replaceTzUtc.astimezone off),
            b.bookmarkURL, b.tags]) := by
  intro bs
  induction bs with
  | nil => intro _; rfl
  | cons b tl ih =>
    intro h
    rw [List.mapM_cons, h b (by simp), ih fun x hx => h x (by simp [hx])]
    rfl

/-- `containsSub` is genuine substring containment (so the `"404" in
str(e)` model means exactly what Python's `in` means). -/
theorem containsSub_iff (needle hay : List Char) :
    containsSub needle hay = true ↔
      ∃ pre post, hay = pre ++ needle ++ post := by
  induction hay with
  | nil =>
    show needle.isEmpty = true ↔ _
    constructor
    · intro h
      have : needle = [] := by
        cases needle with
        | nil => rfl
        | cons c t => exact absurd h (by simp [List.isEmpty])
      exact ⟨[], [], by simp [this]⟩
    · intro ⟨pre, post, hp⟩
      have h1 : pre = [] ∧ needle ++ post = [] := by
        cases pre with
        | nil => exact ⟨rfl, hp.symm⟩
        | cons c t => simp at hp
      have h2 : needle = [] := by
        rcases List.append_eq_nil.mp h1.2 with ⟨hn, _⟩
        exact hn
      simp [h2, List.isEmpty]
  | cons c t ih =>
    show (if needle.isPrefixOf (c :: t) then true else containsSub needle t)
      = true ↔ _
    by_cases hp : needle.isPrefixOf (c :: t)
    · rw [if_pos hp]
      have hpre : needle <+: (c :: t) :=
        (List.isPrefixOf_iff_prefix).mp hp
      obtain ⟨post, hpost⟩ := hpre
      constructor
      · intro _
        exact ⟨[], post, by simp [hpost]⟩
      · intro _
        rfl
    · rw [if_neg hp, ih]
      constructor
      · intro ⟨pre, post, hpp⟩
        refine ⟨c :: pre, post, ?_⟩
        simp [hpp]
      · intro ⟨pre, post, hpp⟩
        cases pre with
        | nil =>
          exfalso
          apply hp
          rw [List.isPrefixOf_iff_prefix]
          exact ⟨post, by simpa using hpp.symm⟩
        | cons c' pre' =>
          simp only [List.cons_append, List.cons.injEq] at hpp
          exact ⟨pre', post, hpp.2⟩

/-! ## Concrete fixtures used by witnesses and counterexamples -/

/-- A config file text holding exactly the three keys of `required_keys`
(no `FILENAME`). -/
def cfgThreeKeys : String :=
  "\x7b\"GITHUB_TOKEN\": \"t\", \"GITHUB_REPO\": \"o/r\", \"TIMEZONE\": \"UTC\"\x7d"

/-- The object `cfgThreeKeys` parses to. -/
def cfgThreeKeysKvs : JsonObj :=
  .cons "GITHUB_TOKEN" (.str "t")
    (.cons "GITHUB_REPO" (.str "o/r")
      (.cons "TIMEZONE" (.str "UTC") .nil))

/-- Canned prompt answers; `overwrite` declines. -/
def ansDecline : PromptAnswers := ⟨"tok", "own/repo", "", "", "no"⟩

/-- The clock instant used by concrete `add` runs: a valid UTC datetime. -/
def now2024 : PyDateTime := ⟨2024, 1, 2, 3, 4, 5, 0, some 0⟩

/-- The spec's render example instant, as `fromisoformat` parses it. -/
def dt2024utc : PyDateTime := ⟨2024, 1, 1, 0, 0, 0, 0, some 0⟩

/-- A timezone database resolving only `"EST5"`, to a fixed -05:00. -/
def tzdbEst : String → Option Int :=
  fun n => if n = "EST5" then some (-300) else none

/-- A GitHub service where every call succeeds. -/
def apiAllOk : GhApi :=
  ⟨Except.ok (), fun _ => Except.ok ⟨"bookmarks.json", "sha1"⟩,
   fun _ _ _ _ => Except.ok (), fun _ _ _ => Except.ok ()⟩

/-- Fetch fails with a 404; creation succeeds. -/
def apiNotFound : GhApi :=
  ⟨Except.ok (), fun _ => Except.error "404 file not found",
   fun _ _ _ _ => Except.ok (), fun _ _ _ => Except.ok ()⟩

/-- Fetch fails with a 404 and the fallback creation also fails. -/
def apiCreateFails : GhApi :=
  ⟨Except.ok (), fun _ => Except.error "404 file not found",
   fun _ _ _ _ => Except.ok (), fun _ _ _ => Except.error "boom"⟩

/-- Fetch succeeds but the update raises an exception whose text
contains `"404"`. -/
def apiUpdate404 : GhApi :=
  ⟨Except.ok (), fun _ => Except.ok ⟨"p", "s"⟩,
   fun _ _ _ _ => Except.error "404 gone", fun _ _ _ => Except.ok ()⟩

/-! ## Claim theorems -/

/-- C3: for every sequence of bookmark records, `save_bookmarks` followed
by `load_bookmarks` on the same file returns the same JSON value, and
reading the records back gives a sequence equal to the original
(round-trip of JSON serialization then deserialization). -/
theorem save_load_roundtrip (bs : List Bookmark) :
    load_bookmarks (some (save_bookmarks (encodeBookmarks bs)))
      = encodeBookmarks bs ∧
    decodeBookmarks (load_bookmarks (some (save_bookmarks
      (encodeBookmarks bs)))) = some bs := by
  refine ⟨load_bookmarks_save _, ?_⟩
  rw [load_bookmarks_save]
  exact decodeBookmarks_encodeBookmarks bs

/-- C4: `load_bookmarks` on a missing file, and on any file whose content
is not valid JSON, returns the empty collection — it is a total function,
so it never raises or fails the process. -/
theorem load_invalid_or_missing_empty (s : String) (h : jparse s = none) :
    load_bookmarks none = Json.arr .nil ∧
    load_bookmarks (some s) = Json.arr .nil := by
  refine ⟨rfl, ?_⟩
  show (match jparse s with
    | none => Json.arr .nil
    | some j => j) = Json.arr .nil
  rw [h]

/-- Witness for C4 at the concrete non-JSON file content. -/
theorem load_invalid_or_missing_empty_witness :
    load_bookmarks none = Json.arr .nil ∧
    load_bookmarks (some "\x7boops") = Json.arr .nil :=
  load_invalid_or_missing_empty "\x7boops" rfl

/-- C9: the `add` command only appends: run on any stored sequence, the
saved file decodes to the previous sequence with exactly one new record
at the end — every previously stored record unchanged in content and
relative order. -/
theorem run_add_appends (api : GhApi) (filename url tags : String)
    (now : PyDateTime) (bs : List Bookmark) :
    ∃ r, run_add api (some (save_bookmarks (encodeBookmarks bs)))
        filename url tags now = some r ∧
      decodeBookmarks (load_bookmarks (some r.savedContent))
        = some (bs ++ [add_bookmark url tags now]) := by
  have hload : load_bookmarks (some (save_bookmarks (encodeBookmarks bs)))
      = encodeBookmarks bs := load_bookmarks_save _
  unfold run_add
  rw [hload]
  refine ⟨_, rfl, ?_⟩
  rw [JsonArr.toList_ofList]
  have hm : List.map Bookmark.toJson bs
        ++ [Bookmark.toJson (add_bookmark url tags now)]
      = List.map Bookmark.toJson (bs ++ [add_bookmark url tags now]) := by
    rw [List.map_append]
    rfl
  rw [hm]
  have h3 : load_bookmarks (some (save_bookmarks (Json.arr (JsonArr.ofList
        (List.map Bookmark.toJson (bs ++ [add_bookmark url tags now]))))))
      = encodeBookmarks (bs ++ [add_bookmark url tags now]) :=
    load_bookmarks_save _
  rw [h3]
  exact decodeBookmarks_encodeBookmarks _

/-- C5: `list_tags` splits each bookmark's tags on `,`, discards empty
tokens, and prints each remaining token with its number of occurrences
across all bookmarks, in descending order of count; on the three
bookmarks with tags `"a,b"`, `"b,c"`, `"a"` it yields a:2, b:2, c:1,
total occurrences 5. -/
theorem list_tags_counts_desc (bs : List Bookmark) :
    ((list_tags bs).Pairwise fun a b => b.2 ≤ a.2) ∧
    (∀ t n, ((t, n) ∈ list_tags bs ↔
      (n = (tagOccurrences bs).count t ∧ 1 ≤ n))) ∧
    list_tags [⟨"u1", "a,b", "d1"⟩, ⟨"u2", "b,c", "d2"⟩, ⟨"u3", "a", "d3"⟩]
      = [("a", 2), ("b", 2), ("c", 1)] ∧
    ((list_tags [⟨"u1", "a,b", "d1"⟩, ⟨"u2", "b,c", "d2"⟩,
      ⟨"u3", "a", "d3"⟩]).map Prod.snd).sum = 5 := by
  refine ⟨?_, ?_, by decide, by decide⟩
  · unfold list_tags most_common
    haveI : IsTotal (String × Nat) (fun a b => b.2 ≤ a.2) :=
      ⟨fun a b => Nat.le_total b.2 a.2⟩
    haveI : IsTrans (String × Nat) (fun a b => b.2 ≤ a.2) :=
      ⟨fun _ _ _ hab hbc => Nat.le_trans hbc hab⟩
    exact List.sorted_insertionSort _ _
  · intro t n
    unfold list_tags most_common
    rw [(List.perm_insertionSort (fun a b : String × Nat => b.2 ≤ a.2)
      (counter (tagOccurrences bs))).mem_iff]
    exact counter_mem (tagOccurrences bs) t n

/-- C6: `list_urls` parses each stored timestamp, stamps it as UTC,
converts it to the resolved timezone and formats it `YYYY-MM-DD
HH:MM:SS`; with stored date `2024-01-01T00:00:00+00:00` and a zone at
offset -05:00 the displayed cell is `2023-12-31 19:00:00`. -/
theorem list_urls_converts_timezone (tzdb : String → Option Int)
    (bs : List Bookmark) (tz_name : String) (off : Int)
    (f : Bookmark → PyDateTime)
    (htz : tzdb tz_name = some off)
    (hdates : ∀ b ∈ bs, fromisoformat b.date = some (f b)) :
    list_urls tzdb bs tz_name = some ⟨[], bs.map fun b =>
      [strftimeYmdHMS ((f b).replaceTzUtc.astimezone off),
        b.bookmarkURL, b.tags]⟩ ∧
    list_urls tzdbEst
      [⟨"http://example.com", "x", "2024-01-01T00:00:00+00:00"⟩] "EST5"
      = some ⟨[], [["2023-12-31 19:00:00", "http://example.com", "x"]]⟩ := by
  constructor
  · simp only [list_urls, htz]
    rw [mapM_rows off f bs hdates]
    rfl
  · decide

/-- Witness for C6 on the spec's render example. -/
theorem list_urls_converts_timezone_witness :
    (list_urls tzdbEst
        [⟨"http://example.com", "x", "2024-01-01T00:00:00+00:00"⟩] "EST5"
      = some ⟨[], (([⟨"http://example.com", "x",
            "2024-01-01T00:00:00+00:00"⟩] : List Bookmark)).map fun b =>
          [strftimeYmdHMS ((dt2024utc).replaceTzUtc.astimezone (-300)),
            b.bookmarkURL, b.tags]⟩) ∧
    list_urls tzdbEst
      [⟨"http://example.com", "x", "2024-01-01T00:00:00+00:00"⟩] "EST5"
      = some ⟨[], [["2023-12-31 19:00:00", "http://example.com", "x"]]⟩ :=
  list_urls_converts_timezone tzdbEst
    [⟨"http://example.com", "x", "2024-01-01T00:00:00+00:00"⟩] "EST5"
    (-300) (fun _ => dt2024utc) (by decide) (by decide)

/-- C7: on a timezone name the database cannot resolve, `list_urls`
emits the fallback warning, displays every timestamp in UTC (offset 0),
returns normally, and keeps the bookmarks in their original order. -/
theorem list_urls_unknown_timezone (tzdb : String → Option Int)
    (bs : List Bookmark) (tz_name : String) (f : Bookmark → PyDateTime)
    (htz : tzdb tz_name = none)
    (hdates : ∀ b ∈ bs, fromisoformat b.date = some (f b)) :
    list_urls tzdb bs tz_name = some
      ⟨["Error: Invalid timezone '" ++ tz_name ++ "'. Falling back to UTC."],
       bs.map fun b =>
        [strftimeYmdHMS ((f b).replaceTzUtc.astimezone 0),
          b.bookmarkURL, b.tags]⟩ := by
  simp only [list_urls, htz]
  rw [mapM_rows 0 f bs hdates]
  rfl

/-- Witness for C7 at a concrete unresolvable timezone name. -/
theorem list_urls_unknown_timezone_witness :
    list_urls (fun _ => none)
      [⟨"http://example.com", "x", "2024-01-01T00:00:00+00:00"⟩]
      "Mars/Olympus" = some
      ⟨["Error: Invalid timezone 'Mars/Olympus'. Falling back to UTC."],
       (([⟨"http://example.com", "x", "2024-01-01T00:00:00+00:00"⟩]
          : List Bookmark)).map
        fun b => [strftimeYmdHMS ((dt2024utc).replaceTzUtc.astimezone 0),
          b.bookmarkURL, b.tags]⟩ :=
  list_urls_unknown_timezone (fun _ => none)
    [⟨"http://example.com", "x", "2024-01-01T00:00:00+00:00"⟩]
    "Mars/Olympus" (fun _ => dt2024utc) rfl (by decide)

/-- C1 counterexample: a config file holding only `GITHUB_TOKEN`,
`GITHUB_REPO` and `TIMEZONE` — with `FILENAME` absent — is accepted as
valid: `initialize_config(force_setup=False)` returns `False` with no
write and no prompt, because the code's `required_keys` has three
entries, not four.  So "returns false without side effects iff all four
required fields are present" is false at this file, and a config missing
only `FILENAME` does not take the repair path. -/
theorem initialize_config_three_keys_cex :
    initialize_config (some cfgThreeKeys) false ansDecline
      = ⟨.returned false, none, false⟩ ∧
    jparse cfgThreeKeys = some (.obj cfgThreeKeysKvs) ∧
    cfgThreeKeysKvs.hasKey "FILENAME" = false :=
  ⟨rfl, rfl, rfl⟩

/-- C1 (amended): `initialize_config(force_setup=False)` on an existing
config file that parses to a JSON object returns `False` without side
effects iff the three keys of `required_keys` — `GITHUB_TOKEN`,
`GITHUB_REPO` and `TIMEZONE` — are all present; `FILENAME` is not
checked.  When one of the three is missing, the user is prompted (the
interactive repair path). -/
theorem initialize_config_valid_iff_three_keys (cfg : String)
    (ans : PromptAnswers) (kvs : JsonObj)
    (hp : jparse cfg = some (.obj kvs)) :
    (initialize_config (some cfg) false ans
        = ⟨.returned false, none, false⟩
      ↔ (kvs.hasKey "GITHUB_TOKEN" = true ∧ kvs.hasKey "GITHUB_REPO" = true
          ∧ kvs.hasKey "TIMEZONE" = true)) ∧
    (¬ (kvs.hasKey "GITHUB_TOKEN" = true ∧ kvs.hasKey "GITHUB_REPO" = true
          ∧ kvs.hasKey "TIMEZONE" = true) →
      (initialize_config (some cfg) false ans).prompted = true) := by
  have hmain : initialize_config (some cfg) false ans =
      (if required_keys.all (fun k => kvs.hasKey k) then
        { outcome := .returned false, written := none, prompted := false }
      else if (ans.overwrite.trim.toLower) ≠ "yes" then
        { outcome := .returned false, written := none, prompted := true }
      else
        { outcome := .returned true,
          written := some (repairedConfig kvs ans), prompted := true }) := by
    show (match jparse cfg with
      | some (.obj kvs) =>
        if required_keys.all (fun k => kvs.hasKey k) then
          ({ outcome := .returned false, written := none,
             prompted := false } : InitResult)
        else if (ans.overwrite.trim.toLower) ≠ "yes" then
          { outcome := .returned false, written := none, prompted := true }
        else
          { outcome := .returned true,
            written := some (repairedConfig kvs ans), prompted := true }
      | _ => { outcome := .crashed, written := none, prompted := false }) = _
    rw [hp]
  have hkeys : (required_keys.all fun k => kvs.hasKey k) = true ↔
      (kvs.hasKey "GITHUB_TOKEN" = true ∧ kvs.hasKey "GITHUB_REPO" = true
        ∧ kvs.hasKey "TIMEZONE" = true) := by
    simp [required_keys, List.all_cons, List.all_nil, Bool.and_eq_true]
  constructor
  · rw [hmain]
    by_cases h3 : (required_keys.all fun k => kvs.hasKey k) = true
    · rw [if_pos h3]
      exact ⟨fun _ => hkeys.mp h3, fun _ => rfl⟩
    · rw [if_neg h3]
      constructor
      · intro heq
        exfalso
        by_cases hov : (ans.overwrite.trim.toLower) ≠ "yes"
        · rw [if_pos hov] at heq
          exact absurd (congrArg InitResult.prompted heq) (by simp)
        · rw [if_neg hov] at heq
          exact absurd (congrArg InitResult.prompted heq) (by simp)
      · intro hk
        exact absurd (hkeys.mpr hk) h3
  · intro hnk
    rw [hmain]
    have h3 : ¬ (required_keys.all fun k => kvs.hasKey k) = true :=
      fun h => hnk (hkeys.mp h)
    rw [if_neg h3]
    by_cases hov : (ans.overwrite.trim.toLower) ≠ "yes"
    · rw [if_pos hov]
    · rw [if_neg hov]

/-- Witness for C1 at the concrete three-key config file. -/
theorem initialize_config_valid_iff_three_keys_witness :
    (initialize_config (some cfgThreeKeys) false ansDecline
        = ⟨.returned false, none, false⟩
      ↔ (cfgThreeKeysKvs.hasKey "GITHUB_TOKEN" = true
          ∧ cfgThreeKeysKvs.hasKey "GITHUB_REPO" = true
          ∧ cfgThreeKeysKvs.hasKey "TIMEZONE" = true)) ∧
    (¬ (cfgThreeKeysKvs.hasKey "GITHUB_TOKEN" = true
          ∧ cfgThreeKeysKvs.hasKey "GITHUB_REPO" = true
          ∧ cfgThreeKeysKvs.hasKey "TIMEZONE" = true) →
      (initialize_config (some cfgThreeKeys) false ansDecline).prompted
        = true) :=
  initialize_config_valid_iff_three_keys cfgThreeKeys ansDecline
    cfgThreeKeysKvs rfl

/-- The file content the `add` command saves over an empty store. -/
def addSavedContent (url tags : String) (now : PyDateTime) : String :=
  save_bookmarks (encodeBookmarks [add_bookmark url tags now])

set_option maxRecDepth 4000 in
/-- C2 counterexample: the record the `add` command stores for url
`http://example.com`, tags `x,y` has fields named `bookmarkURL`, `tags`
and `date` — there is no field named `url`, so the data model's field
name `url` does not match the code. -/
theorem add_record_field_names_cex :
    (run_add apiAllOk none "bookmarks.json" "http://example.com" "x,y"
        now2024).map (fun r => jparse r.savedContent)
      = some (some (Json.arr (.cons (.obj
          (.cons "bookmarkURL" (.str "http://example.com")
            (.cons "tags" (.str "x,y")
              (.cons "date" (.str "2024-01-02T03:04:05+00:00") .nil))))
          .nil))) ∧
    (JsonObj.cons "bookmarkURL" (.str "http://example.com")
      (.cons "tags" (.str "x,y")
        (.cons "date" (.str "2024-01-02T03:04:05+00:00") .nil))).hasKey
      "url" = false := by
  exact ⟨by decide, by decide⟩

/-- C2 (amended): the `add` command on an empty store saves exactly one
record, whose JSON fields are named `bookmarkURL`, `tags` and `date`
(the URL is stored under `bookmarkURL`, not `url`); its values are the
given url and tags and a well-formed UTC ISO-8601 date (`fromisoformat`
recovers the clock instant exactly); the file is saved and then exactly
one push is attempted. -/
theorem run_add_empty_store_one_record (api : GhApi)
    (fc : Option String) (filename url tags : String) (now : PyDateTime)
    (hempty : load_bookmarks fc = Json.arr .nil)
    (hvalid : now.Valid) (hutc : now.offsetMinutes = some 0) :
    run_add api fc filename url tags now =
      some ⟨addSavedContent url tags now,
        [.savedFile (addSavedContent url tags now),
         .pushAttempt (addSavedContent url tags now)],
        push_to_github api filename (addSavedContent url tags now)⟩ ∧
    jparse (addSavedContent url tags now)
      = some (Json.arr (.cons (.obj (.cons "bookmarkURL" (.str url)
          (.cons "tags" (.str tags)
            (.cons "date" (.str now.isoformat) .nil)))) .nil)) ∧
    fromisoformat now.isoformat = some now ∧
    ([MainEffect.savedFile (addSavedContent url tags now),
      MainEffect.pushAttempt (addSavedContent url tags now)].countP
      MainEffect.isPush) = 1 := by
  refine ⟨?_, jparse_jrender _, fromisoformat_isoformat now hvalid hutc, ?_⟩
  · unfold run_add
    rw [hempty]
    rfl
  · simp [List.countP_cons, MainEffect.isPush]

/-- Witness for C2 at the spec's scenario inputs. -/
theorem run_add_empty_store_one_record_witness :
    run_add apiAllOk none "bookmarks.json" "http://example.com" "x,y"
        now2024 =
      some ⟨addSavedContent "http://example.com" "x,y" now2024,
        [.savedFile (addSavedContent "http://example.com" "x,y" now2024),
         .pushAttempt (addSavedContent "http://example.com" "x,y" now2024)],
        push_to_github apiAllOk "bookmarks.json"
          (addSavedContent "http://example.com" "x,y" now2024)⟩ ∧
    jparse (addSavedContent "http://example.com" "x,y" now2024)
      = some (Json.arr (.cons (.obj
          (.cons "bookmarkURL" (.str "http://example.com")
            (.cons "tags" (.str "x,y")
              (.cons "date" (.str now2024.isoformat) .nil)))) .nil)) ∧
    fromisoformat now2024.isoformat = some now2024 ∧
    ([MainEffect.savedFile (addSavedContent "http://example.com" "x,y"
        now2024),
      MainEffect.pushAttempt (addSavedContent "http://example.com" "x,y"
        now2024)].countP MainEffect.isPush) = 1 :=
  run_add_empty_store_one_record apiAllOk none "bookmarks.json"
    "http://example.com" "x,y" now2024 rfl (by decide) rfl

/-- C8 counterexample: when the fetch fails with a 404 and the fallback
`create_file` call itself fails, the exception propagates out of
`push_to_github` (there is no handler around `repo.create_file`) and
crashes the process — no non-fatal "GitHub error occurred" message is
printed.  So "any other failure is reported as a non-fatal message and
the process does not crash" is false at this run. -/
theorem push_create_failure_crashes_cex :
    (push_to_github apiCreateFails "bookmarks.json" "c").outcome
      = .raised "boom" ∧
    (push_to_github apiCreateFails "bookmarks.json" "c").messages
      = ["File bookmarks.json not found, creating a new file."] :=
  ⟨rfl, rfl⟩

/-- C8 (amended): with the repository resolved, `push_to_github` fetches
the remote file and, on success, updates it with the fetched revision
marker; a fetch failure whose text contains "404" takes the create path;
any other failure of the fetch or of the update is reported as a
non-fatal message.  But an exception raised by `create_file` itself is
uncaught and propagates (the process crashes).  The local save is
unaffected either way: the `add` run's effect trace is always
save-then-push of the same content, whatever the push outcome. -/
theorem push_to_github_paths (api : GhApi) (filename content : String)
    (hrepo : api.get_repo = Except.ok ()) :
    (∀ rf, api.get_contents filename = Except.ok rf →
      api.update_file rf.path "Update bookmarks" content rf.sha
          = Except.ok () →
      push_to_github api filename content =
        ⟨[.getContents filename,
          .updateFile rf.path "Update bookmarks" content rf.sha],
         ["Updated file " ++ filename ++ " in the GitHub repo."], .ok⟩) ∧
    (∀ e, api.get_contents filename = Except.error e → is404 e = true →
      api.create_file filename "Add bookmarks" content = Except.ok () →
      push_to_github api filename content =
        ⟨[.getContents filename,
          .createFile filename "Add bookmarks" content],
         ["File " ++ filename ++ " not found, creating a new file.",
          "Created file " ++ filename ++ " in the GitHub repo."], .ok⟩) ∧
    (∀ e, api.get_contents filename = Except.error e → is404 e = false →
      push_to_github api filename content =
        ⟨[.getContents filename],
         ["GitHub error occurred: " ++ e], .ok⟩) ∧
    (∀ rf e, api.get_contents filename = Except.ok rf →
      api.update_file rf.path "Update bookmarks" content rf.sha
          = Except.error e →
      is404 e = false →
      push_to_github api filename content =
        ⟨[.getContents filename,
          .updateFile rf.path "Update bookmarks" content rf.sha],
         ["GitHub error occurred: " ++ e], .ok⟩) ∧
    (∀ e ce, api.get_contents filename = Except.error e → is404 e = true →
      api.create_file filename "Add bookmarks" content = Except.error ce →
      (push_to_github api filename content).outcome = .raised ce) ∧
    (∀ fc url tags now r,
      run_add api fc filename url tags now = some r →
      r.effects = [.savedFile r.savedContent,
        .pushAttempt r.savedContent]) := by
  refine ⟨?_, ?_, ?_, ?_, ?_, ?_⟩
  · intro rf hget hupd
    have h1 : push_to_github api filename content
        = push_after_fetch api filename content rf := by
      unfold push_to_github
      rw [hrepo, hget]
    rw [h1]
    unfold push_after_fetch
    rw [hupd]
  · intro e hget h404 hcreate
    have h1 : push_to_github api filename content
        = push_handle_exc api filename content [.getContents filename] e := by
      unfold push_to_github
      rw [hrepo, hget]
    rw [h1]
    unfold push_handle_exc
    rw [if_pos h404, hcreate]
    rfl
  · intro e hget h404
    have h1 : push_to_github api filename content
        = push_handle_exc api filename content [.getContents filename] e := by
      unfold push_to_github
      rw [hrepo, hget]
    rw [h1]
    unfold push_handle_exc
    rw [if_neg (show ¬ is404 e = true by simp [h404])]
  · intro rf e hget hupd h404
    have h0 : push_to_github api filename content
        = push_after_fetch api filename content rf := by
      unfold push_to_github
      rw [hrepo, hget]
    have h1 : push_to_github api filename content
        = push_handle_exc api filename content
          [.getContents filename,
           .updateFile rf.path "Update bookmarks" content rf.sha] e := by
      rw [h0]
      unfold push_after_fetch
      rw [hupd]
    rw [h1]
    unfold push_handle_exc
    rw [if_neg (show ¬ is404 e = true by simp [h404])]
  · intro e ce hget h404 hcreate
    have h1 : push_to_github api filename content
        = push_handle_exc api filename content [.getContents filename] e := by
      unfold push_to_github
      rw [hrepo, hget]
    rw [h1]
    unfold push_handle_exc
    rw [if_pos h404, hcreate]
  · intro fc url tags now r h
    unfold run_add at h
    cases hl : load_bookmarks fc <;> rw [hl] at h <;>
      try exact Option.noConfusion h
    case arr l =>
      have hx := Option.some.inj h
      subst hx
      rfl

/-- Witness for C8: the create path at a concrete service whose fetch
404s and whose create succeeds. -/
theorem push_to_github_paths_witness :
    push_to_github apiNotFound "bookmarks.json" "c" =
      ⟨[.getContents "bookmarks.json",
        .createFile "bookmarks.json" "Add bookmarks" "c"],
       ["File bookmarks.json not found, creating a new file.",
        "Created file bookmarks.json in the GitHub repo."], .ok⟩ :=
  (push_to_github_paths apiNotFound "bookmarks.json" "c" rfl).2.1
    "404 file not found" rfl rfl rfl

/-- C10: the create path is selected exactly by the substring test
`"404" in str(e)` — `is404` holds iff the exception text contains
`"404"` as a substring — applied to the exception of the fetch, or of
the update after a successful fetch; an exception whose text contains
"404" makes `push_to_github` call `create_file`, and one without it is
reported as a generic error with no create call. -/
theorem push_404_dispatch (api : GhApi) (filename content : String)
    (hrepo : api.get_repo = Except.ok ()) :
    (∀ e : String, (is404 e = true ↔
      ∃ pre post, e.data = pre ++ "404".data ++ post)) ∧
    (∀ e, api.get_contents filename = Except.error e →
      (is404 e = true →
        (push_to_github api filename content).calls =
          [.getContents filename,
           .createFile filename "Add bookmarks" content]) ∧
      (is404 e = false →
        push_to_github api filename content =
          ⟨[.getContents filename],
           ["GitHub error occurred: " ++ e], .ok⟩)) ∧
    (∀ rf e, api.get_contents filename = Except.ok rf →
      api.update_file rf.path "Update bookmarks" content rf.sha
          = Except.error e →
      (is404 e = true →
        (push_to_github api filename content).calls =
          [.getContents filename,
           .updateFile rf.path "Update bookmarks" content rf.sha,
           .createFile filename "Add bookmarks" content]) ∧
      (is404 e = false →
        push_to_github api filename content =
          ⟨[.getContents filename,
            .updateFile rf.path "Update bookmarks" content rf.sha],
           ["GitHub error occurred: " ++ e], .ok⟩)) := by
  refine ⟨fun e => containsSub_iff "404".data e.data, ?_, ?_⟩
  · intro e hget
    have h1 : push_to_github api filename content
        = push_handle_exc api filename content [.getContents filename] e := by
      unfold push_to_github
      rw [hrepo, hget]
    constructor
    · intro h404
      rw [h1]
      unfold push_handle_exc
      rw [if_pos h404]
      cases api.create_file filename "Add bookmarks" content <;> rfl
    · intro h404
      rw [h1]
      unfold push_handle_exc
      rw [if_neg (show ¬ is404 e = true by simp [h404])]
  · intro rf e hget hupd
    have h0 : push_to_github api filename content
        = push_after_fetch api filename content rf := by
      unfold push_to_github
      rw [hrepo, hget]
    have h1 : push_to_github api filename content
        = push_handle_exc api filename content
          [.getContents filename,
           .updateFile rf.path "Update bookmarks" content rf.sha] e := by
      rw [h0]
      unfold push_after_fetch
      rw [hupd]
    constructor
    · intro h404
      rw [h1]
      unfold push_handle_exc
      rw [if_pos h404]
      cases api.create_file filename "Add bookmarks" content <;> rfl
    · intro h404
      rw [h1]
      unfold push_handle_exc
      rw [if_neg (show ¬ is404 e = true by simp [h404])]

/-- Witness for C10: an update failure whose text contains "404"
triggers the create call. -/
theorem push_404_dispatch_witness :
    (push_to_github apiUpdate404 "bookmarks.json" "c").calls =
      [.getContents "bookmarks.json",
       .updateFile "p" "Update bookmarks" "c" "s",
       .createFile "bookmarks.json" "Add bookmarks" "c"] :=
  ((push_404_dispatch apiUpdate404 "bookmarks.json" "c" rfl).2.2
    ⟨"p", "s"⟩ "404 gone" rfl rfl).1 rfl

end NoteThisUrl
